import Mathlib

/-!
Verification development for the `node-sql-generate` schema-code generator.

The generator introspects a database's `information_schema` catalog and emits
JavaScript source defining each table.  We shallowly embed the generator
(`index.js`) in Lean: JavaScript strings become `String`, absent values become
`Option`, the asynchronous pipeline becomes explicit state passing over a
`GenState`, and the external world (database client, file system, `JSON.parse`)
is abstracted into an `Env` record of result-producing functions.
-/

namespace NodeSqlGen

/-! ## JavaScript value helpers -/

/-- Truthiness of a JS value that is either a string or `undefined`:
`undefined` and the empty string are falsy. -/
def jsTruthy : Option String → Bool
  | none => false
  | some s => s ≠ ""

/-- JS `a || b` over string-or-undefined values. -/
def jsOr (a b : Option String) : Option String :=
  if jsTruthy a then a else b

/-- JS string coercion of a string-or-undefined value (`undefined` prints as
"undefined" when concatenated). -/
def jsCoe : Option String → String
  | none => "undefined"
  | some s => s

/-- A JS numeric slot that may also be `undefined` or `NaN`.  `stats.bytesWritten`
starts out as an absent property, i.e. `undefined`. -/
inductive JsNum
  | undef
  | nan
  | num (n : Nat)
deriving DecidableEq, Repr

/-- JS `x += n` on a `JsNum` slot: `undefined + n` and `NaN + n` are `NaN`. -/
def jsAdd : JsNum → Nat → JsNum
  | .undef, _ => .nan
  | .nan, _ => .nan
  | .num a, n => .num (a + n)

/-! ## String helpers (char-list based, mirroring the JS operations used) -/

/-- `Array.prototype.join(sep)`. -/
def joinSep (sep : String) : List String → String
  | [] => ""
  | [x] => x
  | x :: y :: rest => x ++ sep ++ joinSep sep (y :: rest)

/-- `s.startsWith(p)` on char lists. -/
def sStartsWith (s p : String) : Bool :=
  p.data.isPrefixOf s.data

/-- `s.toLowerCase()` (ASCII case fold, which covers every string the
generator lowercases). -/
def sToLower (s : String) : String :=
  ⟨s.data.map Char.toLower⟩

/-- Drop the first `n` characters of a string. -/
def sDropChars (s : String) (n : Nat) : String :=
  ⟨s.data.drop n⟩

/-- `String.prototype.replace(pat, rep)` with a plain-string pattern replaces
only the first occurrence. -/
def replaceFirstL (s pat rep : List Char) : List Char :=
  match s with
  | [] => if pat.isPrefixOf ([] : List Char) then rep else []
  | c :: rest =>
    if pat.isPrefixOf (c :: rest) then rep ++ (c :: rest).drop pat.length
    else c :: replaceFirstL rest pat rep

def jsReplaceFirst (s pat rep : String) : String :=
  ⟨replaceFirstL s.data pat.data rep.data⟩

/-- `String.prototype.replace(/c/g, rep)` for a single-character pattern. -/
def replaceAllCharL (c : Char) (rep : List Char) : List Char → List Char
  | [] => []
  | x :: rest => (if x = c then rep else [x]) ++ replaceAllCharL c rep rest

def jsReplaceAllChar (s : String) (c : Char) (rep : String) : String :=
  ⟨replaceAllCharL c rep.data s.data⟩

/-- `if (dsn.slice(-1) === ';') dsn = dsn.substring(0, dsn.length - 1)`. -/
def stripTrailingSemi (s : String) : String :=
  if s.data.getLast? = some (Char.ofNat 59) then ⟨s.data.dropLast⟩ else s

/-! ## `camelize` (index.js lines 64-68)

`name.replace(/_(.)/g, (all, c) => c.toUpperCase())`: each underscore followed
by a character is replaced by that character uppercased.  The regex `.` does
not match a newline, in which case the underscore is kept and scanning resumes
at the following character. -/

def camelizeL : List Char → List Char
  | [] => []
  | c :: rest =>
    if c = '_' then
      match rest with
      | [] => ['_']
      | d :: rest2 =>
        if d = Char.ofNat 10 then '_' :: camelizeL (d :: rest2)
        else d.toUpper :: camelizeL rest2
    else c :: camelizeL rest

def camelize (s : String) : String :=
  ⟨camelizeL s.data⟩

/-! ## `parseInt(x) || null` -/

/-- Leading decimal-digit run of `parseInt` after optional sign (radix
subtleties are irrelevant here: the generator only ever applies this to an
absent property). -/
def parseIntCore (cs : List Char) : Option Int :=
  let cs := cs.dropWhile (fun c => c = ' ')
  let (neg, cs) :=
    match cs with
    | '-' :: rest => (true, rest)
    | '+' :: rest => (false, rest)
    | rest => (false, rest)
  let digits := cs.takeWhile Char.isDigit
  if digits = [] then none
  else
    let n : Nat := digits.foldl (fun acc c => acc * 10 + (c.toNat - 48)) 0
    some (if neg then -(n : Int) else (n : Int))

/-- `parseInt(v) || null` where `v` is a string or `undefined`: `undefined`
parses to `NaN` (falsy, hence `null`), and a parse result of `0` is also falsy
and becomes `null`. -/
def jsParseIntOrNull : Option String → Option Int
  | none => none
  | some s =>
    match parseIntCore s.data with
    | none => none
    | some n => if n = 0 then none else some n

/-! ## Dialect resolution (index.js lines 36-57) -/

/-- `/^(mysql|postgres|mssql)/i.exec(options.dsn)`: the lowercased matched
prefix, or `none` when the regex does not match.  The three alternatives are
mutually exclusive as prefixes. -/
def inferDialect (dsn : String) : Option String :=
  let low := sToLower dsn
  if sStartsWith low "mysql" then some "mysql"
  else if sStartsWith low "postgres" then some "postgres"
  else if sStartsWith low "mssql" then some "mssql"
  else none

def dsnRequiredMsg : String := "options.dsn is required"
def dialectRequiredMsg : String := "options.dialect is required"
def dialectInvalidMsg : String :=
  "options.dialect must be either \"mysql\", \"pg\" or \"mssql\""
def databaseRequiredMsg : String :=
  "options.database is required if it is not part of the DSN"

/-- The standard property names of `Object.prototype` (ES2015-era, which the
code's Node runtime provides).  A property lookup on a plain object literal
falls back to these when the key is not an own property. -/
def objectProtoProps : List String :=
  ["constructor", "hasOwnProperty", "isPrototypeOf", "propertyIsEnumerable",
   "toLocaleString", "toString", "valueOf", "__proto__",
   "__defineGetter__", "__defineSetter__", "__lookupGetter__", "__lookupSetter__"]

/-- JS truthiness of `supportedDialects[d]` (line 54): the object literal has
own properties `mysql`, `pg`, `mssql` (value 1), and the lookup falls back to
`Object.prototype`, whose standard properties are all functions or
`Object.prototype` itself and hence truthy.  So the check also passes for any
inherited `Object.prototype` property name, such as "constructor" or
"__proto__". -/
def supportedDialectsTruthy (d : String) : Bool :=
  d = "mysql" ∨ d = "pg" ∨ d = "mssql" ∨ d ∈ objectProtoProps

/-- Lines 36-57 of index.js: validate `options.dsn`, infer `options.dialect`
from the DSN prefix when absent (mapping "postgres" to "pg"), lowercase it and
check it for truthiness against the supported-dialect table (a JS property
lookup, which also consults `Object.prototype`). -/
def resolveDialect (dsn dialect : Option String) : Except String String :=
  if jsTruthy dsn = false then .error dsnRequiredMsg
  else
    let afterInfer : Except String String :=
      if jsTruthy dialect = false then
        match inferDialect (dsn.getD "") with
        | none => .error dialectRequiredMsg
        | some m => .ok (if m = "postgres" then "pg" else m)
      else .ok (dialect.getD "")
    match afterInfer with
    | .error e => .error e
    | .ok d =>
      let low := sToLower d
      if supportedDialectsTruthy low = true then .ok low
      else .error dialectInvalidMsg

/-! ## MSSQL DSN transformation (index.js lines 313-328) -/

/-- The string handed to `JSON.parse`: strip one trailing `;`, remove the
first occurrence of "mssql://", turn every `=` into `":"` and every `;` into
`","`, and wrap the result in `{"` ... `"}`. -/
def mssqlTransform (dsn : String) : String :=
  let stripped := stripTrailingSemi dsn
  let mid := jsReplaceAllChar
    (jsReplaceAllChar (jsReplaceFirst stripped "mssql://" "") (Char.ofNat 61) "\":\"")
    (Char.ofNat 59) "\",\""
  "\x7b\"" ++ mid ++ "\"\x7d"

/-- JS object indexing on an object built from a JSON pair list: the last
binding of a key wins. -/
def lookupLast (ps : List (String × String)) (k : String) : Option String :=
  ps.foldl (fun acc p => if p.1 = k then some p.2 else acc) none

/-! ## Column normalization (index.js lines 178-235) -/

/-- A row fetched by the columns query, with the aliases chosen by the query:
`name`, `nullable` (the raw `IS_NULLABLE` string), `defaultValue`,
`charLength` and `type`. -/
structure RawColumn where
  name : String
  nullable : String
  defaultValue : Option String
  charLength : Option Int
  type : String
deriving DecidableEq, Repr

/-- The row after the in-place normalization of lines 214-231. -/
structure NormColumn where
  name : String
  nullable : Bool
  defaultValue : Option String
  charLength : Option Int
  type : String
  maxLength : Option Int
deriving DecidableEq, Repr

/-- Lines 215-225: rewrite the three verbose type names. -/
def normalizeType (t : String) : String :=
  if t = "character varying" then "varchar"
  else if t = "character" then "char"
  else if t = "integer" then "int"
  else t

/-- Reading `col.maxLength` on a fetched row: the columns query aliases
`CHARACTER_MAXIMUM_LENGTH` as `charLength` and never defines a `maxLength`
property, so the access yields `undefined`. -/
def fetchedMaxLength (_ : RawColumn) : Option String := none

/-- Lines 214-231: the per-row normalization.  `col.type` is rewritten,
`col.nullable` becomes `col.nullable === 'YES'`, and
`col.maxLength = parseInt(col.maxLength) || null` is computed from the absent
`maxLength` property; `col.charLength` is left untouched. -/
def normalizeColumn (col : RawColumn) : NormColumn :=
  { name := col.name
    nullable := col.nullable = "YES"
    defaultValue := col.defaultValue
    charLength := col.charLength
    type := normalizeType col.type
    maxLength := jsParseIntOrNull (fetchedMaxLength col) }

/-! ## Table-name filter (index.js lines 148-174) -/

/-- The body of the `rows.map` callback in `getListOfTables`: returns the name
to keep it, `none` (JS `undefined`) to drop it.  Regexes are modeled as
predicates on the name (`row.name.match(re) !== null`). -/
def tableFilterMap (inc exc : Option (List (String → Bool))) (name : String) :
    Option String :=
  if inc.isSome || exc.isSome then
    match inc with
    | some incList =>
      if incList.any (fun re => re name) then
        match exc with
        | some excList =>
          if !(excList.all (fun re => !(re name))) then none else some name
        | none => some name
      else none
    | none =>
      match exc with
      | some excList =>
        if !(excList.all (fun re => !(re name))) then none else some name
      | none => none
  else some name

/-- `rows.map(...).filter(r => r !== undefined)` applied to the fetched table
names. -/
def filterTableNames (inc exc : Option (List (String → Bool)))
    (rows : List String) : List String :=
  (rows.map (tableFilterMap inc exc)).filterMap id

/-! ## Options, environment and pipeline state -/

/-- `options.outputFile`: a filename, a number (only `1` selects stdout), or
absent. -/
inductive OutputFile
  | str (s : String)
  | num (n : Nat)
  | undef
deriving DecidableEq, Repr

/-- The options record after the defaulting and dialect-specific setup of
index.js (lines 59-62 and 253-358) has run: `eol`, `indent` are defaulted,
`dialect` is resolved. -/
structure GenOptions where
  dialect : String
  dsn : String
  schema : Option String := none
  database : Option String := none
  indent : String := "\t"
  eol : String := "\n"
  outputFile : OutputFile := .undef
  camelize : Bool := false
  omitComments : Bool := false
  includeSchema : Bool := false
  modularize : Bool := false
  includeMeta : Bool := false
  prepend : Option String := none
  append : Option String := none
  includeRegex : Option (List (String → Bool)) := none
  excludeRegex : Option (List (String → Bool)) := none

/-- An entry pushed onto `stats.tables[tableName].columns` (lines 482-488). -/
structure ColStat where
  name : String
  property : String
  type : String
  nullable : Bool
  charLength : Option Int
deriving DecidableEq, Repr

/-- The `stats` object (lines 241-248), minus the wall-clock fields.  Note
that it initializes `written : 0` while `write()` increments `bytesWritten`,
a property the initializer never sets. -/
structure Stats where
  written : Nat := 0
  buffer : String := ""
  bytesWritten : JsNum := .undef
  tables : List (String × List ColStat) := []

/-- `stats.tables[k] = v`: overwrite an existing key, else add it. -/
def setTable (l : List (String × List ColStat)) (k : String)
    (v : List ColStat) : List (String × List ColStat) :=
  if l.any (fun p => p.1 = k) then l.map (fun p => if p.1 = k then (k, v) else p)
  else l ++ [(k, v)]

/-- Names of the six pipeline steps handed to `async.series` (lines 536-543). -/
inductive StepName
  | openFileS
  | connectS
  | writeHeadS
  | fetchTablesS
  | processTablesS
  | writeTailS
deriving DecidableEq, Repr

/-- The mutable closure state of one `module.exports` invocation, plus a log
of every `write()` call and a trace of the pipeline steps that ran. -/
structure GenState where
  fd : Option Nat := none
  stats : Stats := {}
  writesLog : List String := []
  tableNames : Option (List String) := none
  connectAttempted : Bool := false
  trace : List StepName := []

def initState : GenState := {}

/-- The external world: results returned by the file system, the database
client and `JSON.parse`.  Each pipeline step consults it. -/
structure Env where
  openResult : Except String Nat := .ok 3
  connectResult : Option String := none
  tableRows : Except String (List String) := .ok []
  columnRows : String → Except String (List RawColumn) := fun _ => .ok []
  writeErr : Nat → Option String := fun _ => none
  clientDatabase : Option String := none
  jsonParse : String → Except String (List (String × String)) := fun _ => .error ""
  infoName : String := "sql-generate"
  infoVersion : String := "0.0.0"
  dateStr : String := ""

/-! ## Text emission (index.js `write`, `writeHead`, `writeTable`, `writeTail`) -/

/-- Lines 99-104: the string assembled by one `write()` call — the non-empty
arguments joined with `options.eol`, plus one trailing `options.eol`. -/
def writeString (o : GenOptions) (args : List String) : String :=
  joinSep o.eol (args.filter (fun s => s ≠ "")) ++ o.eol

/-- The header comment of line 403 ("// autogenerated by <name> v<version> on
<date>"); the package metadata and the current date come from the
environment. -/
def headerComment (env : Env) : String :=
  "// autogenerated by " ++ env.infoName ++ " v" ++ env.infoVersion ++
    " on " ++ env.dateStr

/-- Lines 395-399: the optional `options.prepend` write. -/
def prependCalls (o : GenOptions) : List (List String) :=
  if jsTruthy o.prepend then [[(o.prepend.getD "") ++ o.eol]] else []

/-- Lines 401-407: the optional header-comment write. -/
def commentCalls (o : GenOptions) (hdr : String) : List (List String) :=
  if o.omitComments then [] else [[hdr ++ o.eol]]

/-- Lines 409-422: either the module wrapper or the `require('sql')` line. -/
def headFinalCall (o : GenOptions) : List String :=
  if o.modularize then
    ["module.exports = function(sql) \x7b", o.indent ++ "var exports = \x7b\x7d;", o.eol]
  else
    ["var sql = require(\x27sql\x27);", o.eol]

/-- All write calls issued by `writeHead` (lines 388-425), in order. -/
def headWriteCalls (o : GenOptions) (hdr : String) : List (List String) :=
  prependCalls o ++ commentCalls o hdr ++ [headFinalCall o]

/-- Line 438: per-table lines are indented one extra level iff `modularize`. -/
def tableIndent (o : GenOptions) : String :=
  if o.modularize then o.indent else ""

/-- Line 70-72: `tryCamelize`. -/
def tryCamelize (o : GenOptions) (name : String) : String :=
  if o.camelize then camelize name else name

/-- Line 452: `(options.schema || options.database) + '.' + tableName`. -/
def fullNameStr (o : GenOptions) (t : String) : String :=
  jsCoe (jsOr o.schema o.database) ++ "." ++ t

def jsBoolStr (b : Bool) : String := if b then "true" else "false"

/-- JS string coercion of `column.charLength` (a number or `null`). -/
def jsIntStr : Option Int → String
  | none => "null"
  | some n => toString n

/-- Lines 467-480: the string built for one column entry. -/
def colString (ind : String) (o : GenOptions) (c : NormColumn) : String :=
  ind ++ o.indent ++ o.indent ++ "\x7b " ++ "name: \x27" ++ c.name ++ "\x27" ++
    (if o.camelize then ", property: \x27" ++ camelize c.name ++ "\x27" else "") ++
    (if o.includeMeta then
      ", type: \x27" ++ c.type ++ "\x27, nullable: " ++ jsBoolStr c.nullable ++
        ", charLength: " ++ jsIntStr c.charLength
    else "") ++ " \x7d"

/-- Lines 455-457: the per-table comment block. -/
def tableCommentArgs (ind : String) (o : GenOptions) (t : String) : List String :=
  [ind ++ "/**", ind ++ " * SQL definition for " ++ fullNameStr o t, ind ++ " */"]

/-- Lines 460-494: the table definition lines pushed after the optional
comment block (the final `options.eol` push included). -/
def tableDefineArgs (ind : String) (o : GenOptions) (t : String)
    (cols : List NormColumn) : List String :=
  [ind ++ "exports." ++ tryCamelize o t ++ " = sql.define(\x7b",
   ind ++ o.indent ++ "name: \x27" ++ t ++ "\x27,"] ++
  (if o.includeSchema then
    [ind ++ o.indent ++ "schema: \x27" ++ jsCoe (jsOr o.schema o.database) ++ "\x27,"]
  else []) ++
  [ind ++ o.indent ++ "columns: [",
   joinSep ("," ++ o.eol) (cols.map (colString ind o)),
   ind ++ o.indent ++ "]",
   ind ++ "\x7d);",
   o.eol]

/-- The full argument list of the single `write.apply` in `writeTable`. -/
def writeTableArgs (o : GenOptions) (t : String) (cols : List NormColumn) :
    List String :=
  (if o.omitComments then [] else tableCommentArgs (tableIndent o) o t) ++
    tableDefineArgs (tableIndent o) o t cols

/-- Lines 512-517: the module-wrapper tail write. -/
def modTailCalls (o : GenOptions) : List (List String) :=
  if o.modularize then [[o.indent ++ "return exports;", "\x7d;"]] else []

/-- Lines 528-532: the optional `options.append` write. -/
def appendCalls (o : GenOptions) : List (List String) :=
  if jsTruthy o.append then [[o.append.getD ""]] else []

/-- All write calls issued by `writeTail` (lines 511-534), in order. -/
def tailWriteCalls (o : GenOptions) : List (List String) :=
  modTailCalls o ++ appendCalls o

/-! ## The pipeline steps -/

/-- One `write()` call (lines 98-116).  With a file descriptor the bytes go to
`fs.write` (which may fail, per the environment; on failure `written` is
`undefined`, so `(written || 0)` adds 0); without one the text is appended to
`stats.buffer`.  Either way `stats.bytesWritten += ...` runs and the call is
recorded in the log.  Byte length is for the default utf8 encoding. -/
def doWrite (o : GenOptions) (env : Env) (s : GenState) (args : List String) :
    GenState × Option String :=
  let str := writeString o args
  let bytes := str.utf8ByteSize
  match s.fd with
  | some _ =>
    match env.writeErr s.writesLog.length with
    | some e =>
      ({ s with writesLog := s.writesLog ++ [str],
                stats := { s.stats with bytesWritten := jsAdd s.stats.bytesWritten 0 } },
       some e)
    | none =>
      ({ s with writesLog := s.writesLog ++ [str],
                stats := { s.stats with bytesWritten := jsAdd s.stats.bytesWritten bytes } },
       none)
  | none =>
    ({ s with writesLog := s.writesLog ++ [str],
              stats := { s.stats with
                buffer := s.stats.buffer ++ str,
                bytesWritten := jsAdd s.stats.bytesWritten bytes } },
     none)

/-- A sequence of `write()` calls run under `async.series`: stop at the first
error. -/
def runWrites (o : GenOptions) (env : Env) :
    List (List String) → GenState → GenState × Option String
  | [], s => (s, none)
  | args :: rest, s =>
    match doWrite o env s args with
    | (s1, none) => runWrites o env rest s1
    | (s1, some e) => (s1, some e)

/-- `openFile` (lines 365-381): open the named file (recording the descriptor
only on success), use descriptor 1 when `outputFile === 1`, else leave `fd`
null. -/
def openFileStep (o : GenOptions) (env : Env) (s : GenState) :
    GenState × Option String :=
  match o.outputFile with
  | .str _ =>
    match env.openResult with
    | .error e => (s, some e)
    | .ok n => ({ s with fd := some n }, none)
  | .num n => if n = 1 then ({ s with fd := some 1 }, none) else (s, none)
  | .undef => (s, none)

/-- `connect` (lines 383-386). -/
def connectStep (env : Env) (s : GenState) : GenState × Option String :=
  let s := { s with connectAttempted := true }
  match env.connectResult with
  | some e => (s, some e)
  | none => (s, none)

/-- `writeHead` (lines 388-425). -/
def writeHeadStep (o : GenOptions) (env : Env) (s : GenState) :
    GenState × Option String :=
  runWrites o env (headWriteCalls o (headerComment env)) s

/-- `fetchTables` (lines 427-432), with `getListOfTables` (lines 118-176)
inlined: the environment supplies the ordered rows, the filter keeps or drops
each name.  On a query error `tableNames` is assigned the undefined result. -/
def fetchTablesStep (o : GenOptions) (env : Env) (s : GenState) :
    GenState × Option String :=
  match env.tableRows with
  | .error e => ({ s with tableNames := none }, some e)
  | .ok rows =>
    ({ s with tableNames := some (filterTableNames o.includeRegex o.excludeRegex rows) },
     none)

/-- Lines 482-488: the stats entry pushed for one column. -/
def colStat (c : NormColumn) : ColStat :=
  { name := c.name
    property := camelize c.name
    type := c.type
    nullable := c.nullable
    charLength := c.charLength }

/-- `writeTable` (lines 435-506): record the table in `stats.tables`, fetch
and normalize its columns, then issue one `write` with the assembled lines. -/
def writeTableStep (o : GenOptions) (env : Env) (t : String) (s : GenState) :
    GenState × Option String :=
  let s := { s with stats := { s.stats with tables := setTable s.stats.tables t [] } }
  match env.columnRows t with
  | .error e => (s, some e)
  | .ok raws =>
    let cols := raws.map normalizeColumn
    let s := { s with stats :=
      { s.stats with tables := setTable s.stats.tables t (cols.map colStat) } }
    doWrite o env s (writeTableArgs o t cols)

/-- `async.eachSeries(tableNames, writeTable, next)`. -/
def eachSeriesTables (o : GenOptions) (env : Env) :
    List String → GenState → GenState × Option String
  | [], s => (s, none)
  | t :: ts, s =>
    match writeTableStep o env t s with
    | (s1, none) => eachSeriesTables o env ts s1
    | (s1, some e) => (s1, some e)

/-- `processTables` (lines 434-509). -/
def processTablesStep (o : GenOptions) (env : Env) (s : GenState) :
    GenState × Option String :=
  eachSeriesTables o env (s.tableNames.getD []) s

/-- `writeTail` (lines 511-534). -/
def writeTailStep (o : GenOptions) (env : Env) (s : GenState) :
    GenState × Option String :=
  runWrites o env (tailWriteCalls o) s

/-- Dispatch one named step, recording it in the trace before it runs. -/
def runStep (o : GenOptions) (env : Env) (n : StepName) (s : GenState) :
    GenState × Option String :=
  match n with
  | .openFileS => openFileStep o env s
  | .connectS => connectStep env s
  | .writeHeadS => writeHeadStep o env s
  | .fetchTablesS => fetchTablesStep o env s
  | .processTablesS => processTablesStep o env s
  | .writeTailS => writeTailStep o env s

/-- `async.series`: run the steps in order, stopping at the first error, which
becomes the final callback's error argument.  Each step is appended to the
trace when it starts. -/
def runSeries (o : GenOptions) (env : Env) :
    List StepName → GenState → GenState × Option String
  | [], s => (s, none)
  | n :: ns, s =>
    match runStep o env n { s with trace := s.trace ++ [n] } with
    | (s1, none) => runSeries o env ns s1
    | (s1, some e) => (s1, some e)

/-- The fixed step order of lines 536-543. -/
def pipelineOrder : List StepName :=
  [.openFileS, .connectS, .writeHeadS, .fetchTablesS, .processTablesS, .writeTailS]

/-- Line 550: `if (fd && fd !== 1)` — JS truthiness makes descriptor 0 falsy. -/
def shouldClose : Option Nat → Bool
  | none => false
  | some n => n ≠ 0 ∧ n ≠ 1

/-- The observable outcome of one generator invocation: every callback
invocation (error argument, stats argument if passed), the final closure
state, and whether the output file was closed. -/
structure GenOutcome where
  callbacks : List (Option String × Option Stats)
  finalState : GenState
  closedFile : Bool

/-- The final callback of `async.series` (lines 543-567): close the file when
a real descriptor was opened, then invoke the user callback exactly once with
the pipeline error and the stats object. -/
def finalize (s : GenState) (appError : Option String) : GenOutcome :=
  if shouldClose s.fd then
    { callbacks := [(appError, some s.stats)], finalState := s, closedFile := true }
  else
    { callbacks := [(appError, some s.stats)], finalState := s, closedFile := false }

/-- The whole `async.series` pipeline plus its final callback. -/
def runPipeline (o : GenOptions) (env : Env) : GenOutcome :=
  let res := runSeries o env pipelineOrder initState
  finalize res.1 res.2

/-! ## Top-level `module.exports` (validation and dialect setup) -/

/-- The options object as handed in by the caller. -/
structure RawOptions where
  dsn : Option String := none
  dialect : Option String := none
  schema : Option String := none
  database : Option String := none
  indent : Option String := none
  eol : Option String := none
  outputFile : OutputFile := .undef
  camelize : Bool := false
  omitComments : Bool := false
  includeSchema : Bool := false
  modularize : Bool := false
  includeMeta : Bool := false
  prepend : Option String := none
  append : Option String := none
  includeRegex : Option (List (String → Bool)) := none
  excludeRegex : Option (List (String → Bool)) := none

/-- An early-exit outcome: a single callback invocation carrying only an
error, before any step of the pipeline has run. -/
def errorOutcome (e : String) : GenOutcome :=
  { callbacks := [(some e, none)], finalState := initState, closedFile := false }

/-- Lines 36-62 and 253-363: dialect resolution, option defaulting and the
dialect-specific setup.  For mysql/pg the database defaults to what the client
parsed from the DSN; for mssql the DSN is itself parsed (via the
`JSON.parse`-based transformation) and its `database` entry is the default.  A
parse failure is returned as an error. -/
def buildOptions (ro : RawOptions) (env : Env) : Except String GenOptions :=
  match resolveDialect ro.dsn ro.dialect with
  | .error e => .error e
  | .ok dia =>
    let base : GenOptions :=
      { dialect := dia
        dsn := ro.dsn.getD ""
        schema := ro.schema
        database := ro.database
        indent := if jsTruthy ro.indent then ro.indent.getD "" else "\t"
        eol := if jsTruthy ro.eol then ro.eol.getD "" else "\n"
        outputFile := ro.outputFile
        camelize := ro.camelize
        omitComments := ro.omitComments
        includeSchema := ro.includeSchema
        modularize := ro.modularize
        includeMeta := ro.includeMeta
        prepend := ro.prepend
        append := ro.append
        includeRegex := ro.includeRegex
        excludeRegex := ro.excludeRegex }
    if dia = "mysql" then
      .ok { base with database := jsOr ro.database env.clientDatabase }
    else if dia = "pg" then
      .ok { base with database := jsOr ro.database env.clientDatabase,
                      schema := jsOr ro.schema (some "public") }
    else
      match env.jsonParse (mssqlTransform (ro.dsn.getD "")) with
      | .error e => .error e
      | .ok ps =>
        .ok { base with database := jsOr ro.database (lookupLast ps "database") }

/-- The outcome when `db = require(options.dialect)` (line 249) throws: the
exception escapes to the caller synchronously, so the callback is never
invoked, nothing is written and no connection is attempted. -/
def thrownOutcome (_moduleName : String) : GenOutcome :=
  { callbacks := [], finalState := initState, closedFile := false }

/-- `module.exports = function(options, callback)`: validation, then
`db = require(options.dialect)` (line 249) — which throws for a dialect that
slipped past the truthiness check via `Object.prototype` ("constructor",
"__proto__", ...), since no module of that name is among the dependencies —
then the dialect-specific setup, the `options.database` requirement check,
and the pipeline. -/
def generate (ro : RawOptions) (env : Env) : GenOutcome :=
  match resolveDialect ro.dsn ro.dialect with
  | .error e => errorOutcome e
  | .ok dia =>
    if dia = "mysql" ∨ dia = "pg" ∨ dia = "mssql" then
      match buildOptions ro env with
      | .error e => errorOutcome e
      | .ok o =>
        if jsTruthy o.database = false then errorOutcome databaseRequiredMsg
        else runPipeline o env
    else thrownOutcome dia

/-! ## Shared concrete fixtures -/

/-- A minimal post-setup options record (mysql, in-memory output). -/
def sampleOptions : GenOptions :=
  { dialect := "mysql", dsn := "mysql://u:p@localhost/x", database := some "db" }

/-- Column rows served for every table by the sample environment. -/
def sampleRawCols : String → List RawColumn := fun _ =>
  [{ name := "user_id", nullable := "NO", defaultValue := none,
     charLength := some 255, type := "character varying" }]

/-- A clean environment: connection succeeds, one table `users` with one
`character varying` column. -/
def sampleEnv : Env :=
  { tableRows := .ok ["users"]
    columnRows := fun u => .ok (sampleRawCols u)
    infoName := "node-sql-generate"
    infoVersion := "1.0.0"
    dateStr := "Mon Jan 01 2024" }

/-! ## Claim theorems -/

/-- C1 (failing-input evaluation): normalizing a PostgreSQL column row whose
`character_maximum_length` was fetched (as `charLength = 255`) rewrites the
type and the nullable flag as the claim says, but produces `maxLength = null`:
the code computes `parseInt(col.maxLength) || null` from the row's absent
`maxLength` property instead of the fetched `charLength`, so the claimed
"character maximum length parsed as an integer" never appears. -/
theorem columns_maxLength_always_null :
    normalizeColumn
      { name := "title", nullable := "YES", defaultValue := none,
        charLength := some 255, type := "character varying" } =
      { name := "title", nullable := true, defaultValue := none,
        charLength := some 255, type := "varchar", maxLength := none } := by
  rfl

/-- C3 (failing-input evaluation): a successful run that writes three chunks
to the in-memory buffer ends with `stats.bytesWritten = NaN`, not the sum of
the byte lengths: the stats object initializes `written : 0` but `write()`
increments the never-initialized `bytesWritten` property, and
`undefined + n` is `NaN`. -/
theorem bytesWritten_is_nan :
    (runPipeline sampleOptions sampleEnv).finalState.stats.bytesWritten = JsNum.nan ∧
      (runPipeline sampleOptions sampleEnv).finalState.writesLog.length = 3 ∧
      (runPipeline sampleOptions sampleEnv).callbacks =
        [(none, some (runPipeline sampleOptions sampleEnv).finalState.stats)] := by
  exact ⟨rfl, rfl, rfl⟩

/-- C4: a fetched table name is kept by the filter of `getListOfTables`
exactly when every given include list has a matching regex witness and no
regex of a given exclude list matches; with neither option the name is always
kept (the third conjunct). -/
theorem table_filter_keeps_iff (inc exc : Option (List (String → Bool)))
    (name : String) :
    (tableFilterMap inc exc name = some name ↔
      ((∀ l, inc = some l → ∃ re ∈ l, re name = true) ∧
       (∀ l, exc = some l → ∀ re ∈ l, re name = false))) ∧
      (inc = none → exc = none → tableFilterMap inc exc name = some name) := by
  constructor
  · cases inc with
    | none =>
      cases exc with
      | none => simp [tableFilterMap]
      | some e =>
        simp only [tableFilterMap, Option.isSome_none, Option.isSome_some,
          Bool.false_or]
        constructor
        · intro h
          refine ⟨by simp, ?_⟩
          intro l hl re hre
          cases hl
          by_cases hall : e.all (fun re => !(re name)) = true
          · have := List.all_eq_true.mp hall re hre
            simpa using this
          · simp [hall] at h
        · rintro ⟨-, h2⟩
          have hall : e.all (fun re => !(re name)) = true := by
            refine List.all_eq_true.mpr ?_
            intro re hre
            simp [h2 e rfl re hre]
          simp [hall]
    | some i =>
      cases exc with
      | none =>
        simp only [tableFilterMap, Option.isSome_some, Bool.true_or]
        constructor
        · intro h
          by_cases hany : i.any (fun re => re name) = true
          · exact ⟨by intro l hl; cases hl; simpa using hany, by simp⟩
          · simp [hany] at h
        · rintro ⟨h1, -⟩
          have hany : i.any (fun re => re name) = true := by
            simpa using h1 i rfl
          simp [hany]
      | some e =>
        simp only [tableFilterMap, Option.isSome_some, Bool.true_or]
        constructor
        · intro h
          by_cases hany : i.any (fun re => re name) = true
          · refine ⟨by intro l hl; cases hl; simpa using hany, ?_⟩
            intro l hl re hre
            cases hl
            by_cases hall : e.all (fun re => !(re name)) = true
            · have := List.all_eq_true.mp hall re hre
              simpa using this
            · simp [hany, hall] at h
          · simp [hany] at h
        · rintro ⟨h1, h2⟩
          have hany : i.any (fun re => re name) = true := by
            simpa using h1 i rfl
          have hall : e.all (fun re => !(re name)) = true := by
            refine List.all_eq_true.mpr ?_
            intro re hre
            simp [h2 e rfl re hre]
          simp [hany, hall]
  · rintro rfl rfl
    simp [tableFilterMap]

theorem isPrefixOf_cons2 {a b : Char} {p l : List Char}
    (h : (a :: b :: p).isPrefixOf l = true) :
    ∃ rest, l = a :: b :: rest := by
  match l with
  | [] => simp [List.isPrefixOf] at h
  | [c] => simp [List.isPrefixOf] at h
  | c :: d :: rest =>
    simp [List.isPrefixOf] at h
    exact ⟨rest, by simp [h.1, h.2.1]⟩

theorem isPrefixOf_cons1 {a : Char} {p l : List Char}
    (h : (a :: p).isPrefixOf l = true) :
    ∃ rest, l = a :: rest := by
  match l with
  | [] => simp [List.isPrefixOf] at h
  | c :: rest =>
    simp [List.isPrefixOf] at h
    exact ⟨rest, by simp [h.1]⟩

theorem mssql_not_mysql {s : String} (h : sStartsWith s "mssql" = true) :
    sStartsWith s "mysql" = false := by
  unfold sStartsWith at h ⊢
  obtain ⟨rest, hr⟩ := isPrefixOf_cons2 (p := "sql".data) h
  rw [hr]
  simp [List.isPrefixOf]

theorem postgres_not_mysql {s : String} (h : sStartsWith s "postgres" = true) :
    sStartsWith s "mysql" = false := by
  unfold sStartsWith at h ⊢
  obtain ⟨rest, hr⟩ := isPrefixOf_cons2 (p := "stgres".data) h
  rw [hr]
  simp [List.isPrefixOf]

theorem mssql_not_postgres {s : String} (h : sStartsWith s "mssql" = true) :
    sStartsWith s "postgres" = false := by
  unfold sStartsWith at h ⊢
  obtain ⟨rest, hr⟩ := isPrefixOf_cons1 (p := "ssql".data) h
  rw [hr]
  simp [List.isPrefixOf]

/-- C5 counterexample: the explicit dialect "constructor" is lowercased to
itself and is none of "mysql", "pg", "mssql", yet the resolver accepts it: the
JS lookup `supportedDialects['constructor']` finds the inherited truthy
`Object.prototype.constructor`, so the claimed "must be either" callback Error
never happens — instead `require('constructor')` throws and the generator ends
with no callback invocation at all. -/
theorem dialect_constructor_no_error :
    resolveDialect (some "mysql://u@localhost/db") (some "constructor") =
      Except.ok "constructor" ∧
    ¬("constructor" = "mysql" ∨ "constructor" = "pg" ∨ "constructor" = "mssql") ∧
    generate { dsn := some "mysql://u@localhost/db", dialect := some "constructor" }
      {} = thrownOutcome "constructor" ∧
    (thrownOutcome "constructor").callbacks = [] := by
  exact ⟨rfl, by decide, rfl, rfl⟩

/-- C5 (amended): dialect resolution.  A falsy `options.dsn` always yields the
"dsn is required" error.  An explicit `options.dialect` is lowercased;
"mysql", "pg" and "mssql" are accepted; any other value yields the
"dialect must be" callback Error unless its lowercased form is an inherited
`Object.prototype` property name ("constructor", "__proto__", ...), in which
case the truthiness check passes, the resolver returns that value, and the
generator invokes no callback at all (the subsequent `require` throws).  When
`options.dialect` is absent it is inferred from a case-insensitive DSN prefix:
"mysql" gives "mysql", "postgres" gives "pg", "mssql" gives "mssql", and a DSN
with none of those prefixes produces the "dialect is required" error. -/
theorem dialect_resolution_cases (dsn dia : Option String) :
    (jsTruthy dsn = false → resolveDialect dsn dia = .error dsnRequiredMsg) ∧
    (jsTruthy dsn = true → jsTruthy dia = true → ∀ d, dia = some d →
      (((sToLower d = "mysql" ∨ sToLower d = "pg" ∨ sToLower d = "mssql") →
          resolveDialect dsn dia = .ok (sToLower d)) ∧
        (¬(sToLower d = "mysql" ∨ sToLower d = "pg" ∨ sToLower d = "mssql") →
          (sToLower d ∈ objectProtoProps →
            resolveDialect dsn dia = .ok (sToLower d) ∧
            ∀ (ro : RawOptions) (env : Env), ro.dsn = dsn → ro.dialect = dia →
              generate ro env = thrownOutcome (sToLower d)) ∧
          (sToLower d ∉ objectProtoProps →
            resolveDialect dsn dia = .error dialectInvalidMsg)))) ∧
    (jsTruthy dsn = true → jsTruthy dia = false → ∀ s, dsn = some s →
      ((sStartsWith (sToLower s) "mysql" = true →
          resolveDialect dsn dia = .ok "mysql") ∧
       (sStartsWith (sToLower s) "postgres" = true →
          resolveDialect dsn dia = .ok "pg") ∧
       (sStartsWith (sToLower s) "mssql" = true →
          resolveDialect dsn dia = .ok "mssql") ∧
       (sStartsWith (sToLower s) "mysql" = false →
        sStartsWith (sToLower s) "postgres" = false →
        sStartsWith (sToLower s) "mssql" = false →
          resolveDialect dsn dia = .error dialectRequiredMsg))) := by
  refine ⟨?_, ?_, ?_⟩
  · intro h
    simp [resolveDialect, h]
  · intro h1 h2 d hd
    subst hd
    have base : resolveDialect dsn (some d) =
        if supportedDialectsTruthy (sToLower d) = true then
          .ok (sToLower d)
        else .error dialectInvalidMsg := by
      simp [resolveDialect, h1, h2]
    constructor
    · intro hmem
      have htrue : supportedDialectsTruthy (sToLower d) = true := by
        unfold supportedDialectsTruthy
        rcases hmem with h | h | h
        · exact decide_eq_true (Or.inl h)
        · exact decide_eq_true (Or.inr (Or.inl h))
        · exact decide_eq_true (Or.inr (Or.inr (Or.inl h)))
      rw [base, if_pos htrue]
    · intro hnmem
      constructor
      · intro hproto
        have htrue : supportedDialectsTruthy (sToLower d) = true := by
          unfold supportedDialectsTruthy
          exact decide_eq_true (Or.inr (Or.inr (Or.inr hproto)))
        have hres : resolveDialect dsn (some d) = .ok (sToLower d) := by
          rw [base, if_pos htrue]
        refine ⟨hres, ?_⟩
        intro ro env hd1 hd2
        unfold generate
        rw [hd1, hd2, hres]
        simp only
        rw [if_neg hnmem]
      · intro hnproto
        have hfalse : ¬ supportedDialectsTruthy (sToLower d) = true := by
          unfold supportedDialectsTruthy
          intro hc
          rcases of_decide_eq_true hc with h | h | h | h
          · exact hnmem (Or.inl h)
          · exact hnmem (Or.inr (Or.inl h))
          · exact hnmem (Or.inr (Or.inr h))
          · exact hnproto h
        rw [base, if_neg hfalse]
  · intro h1 h2 s hs
    subst hs
    refine ⟨?_, ?_, ?_, ?_⟩
    · intro hm
      simp [resolveDialect, h1, h2, inferDialect, hm]
      rfl
    · intro hp
      have hm : sStartsWith (sToLower s) "mysql" = false := postgres_not_mysql hp
      simp [resolveDialect, h1, h2, inferDialect, hm, hp]
      rfl
    · intro hms
      have hm : sStartsWith (sToLower s) "mysql" = false := mssql_not_mysql hms
      have hp : sStartsWith (sToLower s) "postgres" = false := mssql_not_postgres hms
      simp [resolveDialect, h1, h2, inferDialect, hm, hp, hms]
      rfl
    · intro hm hp hms
      simp [resolveDialect, h1, h2, inferDialect, hm, hp, hms]

/-- C5 witness: at a DSN with the "postgres" prefix and no explicit dialect,
the resolver returns "pg". -/
theorem dialect_resolution_cases_witness :
    resolveDialect (some "postgres://u@localhost/db") none = .ok "pg" := by
  exact ((dialect_resolution_cases (some "postgres://u@localhost/db") none).2.2
    rfl rfl "postgres://u@localhost/db" rfl).2.1 (by decide)

/-! ## Infrastructure lemmas about the pipeline -/

theorem sjoin_concat (l : List String) (s : String) :
    String.join (l ++ [s]) = String.join l ++ s := by
  simp [String.join_eq]
  rfl

theorem sjoin_cons (s : String) (l : List String) :
    String.join (s :: l) = s ++ String.join l := by
  simp [String.join_eq]
  rfl

theorem sjoin_append (a b : List String) :
    String.join (a ++ b) = String.join a ++ String.join b := by
  simp [String.join_eq]
  rfl

theorem doWrite_proj (o : GenOptions) (env : Env) (s : GenState) (args : List String) :
    (doWrite o env s args).1.writesLog = s.writesLog ++ [writeString o args] ∧
    (doWrite o env s args).1.trace = s.trace ∧
    (doWrite o env s args).1.fd = s.fd ∧
    (doWrite o env s args).1.tableNames = s.tableNames := by
  unfold doWrite
  cases s.fd <;> simp
  split <;> simp

theorem doWrite_none (o : GenOptions) (env : Env) (s : GenState) (args : List String)
    (h : s.fd = none) :
    doWrite o env s args =
      ({ s with
          writesLog := s.writesLog ++ [writeString o args],
          stats := { s.stats with
            buffer := s.stats.buffer ++ writeString o args,
            bytesWritten := jsAdd s.stats.bytesWritten (writeString o args).utf8ByteSize } },
       none) := by
  unfold doWrite
  rw [h]

theorem runWrites_none (o : GenOptions) (env : Env) (calls : List (List String)) :
    ∀ s : GenState, s.fd = none →
      (runWrites o env calls s).2 = none ∧
      (runWrites o env calls s).1.fd = none ∧
      (runWrites o env calls s).1.writesLog =
        s.writesLog ++ calls.map (writeString o) ∧
      (runWrites o env calls s).1.stats.buffer =
        s.stats.buffer ++ String.join (calls.map (writeString o)) ∧
      (runWrites o env calls s).1.trace = s.trace ∧
      (runWrites o env calls s).1.tableNames = s.tableNames := by
  induction calls with
  | nil =>
    intro s h
    simp [runWrites, h, String.join]
  | cons c rest ih =>
    intro s h
    rcases hde : doWrite o env s c with ⟨s1, e⟩
    have hX := doWrite_none o env s c h
    rw [hde] at hX
    rw [Prod.mk.injEq] at hX
    obtain ⟨hs1, he⟩ := hX
    subst he
    subst hs1
    have hstep : runWrites o env (c :: rest) s = runWrites o env rest
        { s with
          writesLog := s.writesLog ++ [writeString o c],
          stats := { s.stats with
            buffer := s.stats.buffer ++ writeString o c,
            bytesWritten := jsAdd s.stats.bytesWritten (writeString o c).utf8ByteSize } } := by
      rw [runWrites, hde]
    rw [hstep]
    obtain ⟨h1, h2, h3, h4, h5, h6⟩ := ih
      { s with
        writesLog := s.writesLog ++ [writeString o c],
        stats := { s.stats with
          buffer := s.stats.buffer ++ writeString o c,
          bytesWritten := jsAdd s.stats.bytesWritten (writeString o c).utf8ByteSize } } h
    refine ⟨h1, h2, ?_, ?_, ?_, ?_⟩
    · rw [h3]
      simp [List.append_assoc]
    · rw [h4]
      simp [sjoin_cons, String.append_assoc]
    · rw [h5]
    · rw [h6]

theorem runWrites_proj (o : GenOptions) (env : Env) (calls : List (List String)) :
    ∀ s : GenState,
      (runWrites o env calls s).1.trace = s.trace ∧
      (runWrites o env calls s).1.fd = s.fd ∧
      (runWrites o env calls s).1.tableNames = s.tableNames ∧
      (∃ δ, (runWrites o env calls s).1.writesLog = s.writesLog ++ δ) ∧
      ((runWrites o env calls s).2 = none →
        (runWrites o env calls s).1.writesLog =
          s.writesLog ++ calls.map (writeString o)) := by
  induction calls with
  | nil =>
    intro s
    simp [runWrites]
  | cons c rest ih =>
    intro s
    rcases hde : doWrite o env s c with ⟨s1, e⟩
    have hp := doWrite_proj o env s c
    rw [hde] at hp
    obtain ⟨hl, ht, hf, hn⟩ := hp
    cases e with
    | none =>
      have hstep : runWrites o env (c :: rest) s = runWrites o env rest s1 := by
        rw [runWrites, hde]
      rw [hstep]
      obtain ⟨t1, f1, n1, ⟨δ, d1⟩, s1ok⟩ := ih s1
      refine ⟨by rw [t1, ht], by rw [f1, hf], by rw [n1, hn],
        ⟨[writeString o c] ++ δ, by rw [d1, hl]; simp⟩, ?_⟩
      intro hnone
      rw [s1ok hnone, hl]
      simp
    | some e2 =>
      have hstep : runWrites o env (c :: rest) s = (s1, some e2) := by
        rw [runWrites, hde]
      rw [hstep]
      exact ⟨ht, hf, hn, ⟨[writeString o c], hl⟩, by intro hc; simp at hc⟩

theorem runWrites_cons_log (o : GenOptions) (env : Env) (c : List String)
    (rest : List (List String)) (s : GenState) :
    ∃ δ, (runWrites o env (c :: rest) s).1.writesLog =
      s.writesLog ++ [writeString o c] ++ δ := by
  rcases hde : doWrite o env s c with ⟨s1, e⟩
  have hp := doWrite_proj o env s c
  rw [hde] at hp
  obtain ⟨hl, -, -, -⟩ := hp
  cases e with
  | none =>
    have hstep : runWrites o env (c :: rest) s = runWrites o env rest s1 := by
      rw [runWrites, hde]
    rw [hstep]
    obtain ⟨-, -, -, ⟨δ, d1⟩, -⟩ := runWrites_proj o env rest s1
    exact ⟨δ, by rw [d1, hl]⟩
  | some e2 =>
    have hstep : runWrites o env (c :: rest) s = (s1, some e2) := by
      rw [runWrites, hde]
    refine ⟨[], ?_⟩
    rw [hstep]
    simpa using hl

theorem writeTableStep_proj (o : GenOptions) (env : Env) (t : String) (s : GenState) :
    (writeTableStep o env t s).1.trace = s.trace ∧
    (writeTableStep o env t s).1.fd = s.fd ∧
    (writeTableStep o env t s).1.tableNames = s.tableNames ∧
    (∃ δ, (writeTableStep o env t s).1.writesLog = s.writesLog ++ δ) := by
  unfold writeTableStep
  cases henv : env.columnRows t with
  | error e => simp
  | ok raws =>
    simp only
    exact ⟨(doWrite_proj _ _ _ _).2.1, (doWrite_proj _ _ _ _).2.2.1,
      (doWrite_proj _ _ _ _).2.2.2, ⟨_, (doWrite_proj _ _ _ _).1⟩⟩

theorem writeTableStep_err (o : GenOptions) (env : Env) (t : String) (s : GenState)
    (e : String) (henv : env.columnRows t = .error e) :
    writeTableStep o env t s =
      ({ s with stats := { s.stats with tables := setTable s.stats.tables t [] } },
       some e) := by
  unfold writeTableStep
  rw [henv]

theorem writeTableStep_none (o : GenOptions) (env : Env) (t : String) (s : GenState)
    (h : s.fd = none) (raws : List RawColumn) (henv : env.columnRows t = .ok raws) :
    (writeTableStep o env t s).2 = none ∧
    (writeTableStep o env t s).1.fd = none ∧
    (writeTableStep o env t s).1.writesLog =
      s.writesLog ++ [writeString o (writeTableArgs o t (raws.map normalizeColumn))] ∧
    (writeTableStep o env t s).1.stats.buffer =
      s.stats.buffer ++ writeString o (writeTableArgs o t (raws.map normalizeColumn)) ∧
    (writeTableStep o env t s).1.trace = s.trace ∧
    (writeTableStep o env t s).1.tableNames = s.tableNames := by
  unfold writeTableStep
  rw [henv]
  simp only
  rw [doWrite_none _ _ _ _ (by exact h)]
  simp [h]

theorem eachSeriesTables_proj (o : GenOptions) (env : Env) :
    ∀ (ts : List String) (s : GenState),
      (eachSeriesTables o env ts s).1.trace = s.trace ∧
      (eachSeriesTables o env ts s).1.fd = s.fd ∧
      (eachSeriesTables o env ts s).1.tableNames = s.tableNames ∧
      (∃ δ, (eachSeriesTables o env ts s).1.writesLog = s.writesLog ++ δ) := by
  intro ts
  induction ts with
  | nil =>
    intro s
    simp [eachSeriesTables]
  | cons t ts ih =>
    intro s
    rcases hde : writeTableStep o env t s with ⟨s1, e⟩
    have hp := writeTableStep_proj o env t s
    rw [hde] at hp
    obtain ⟨ht, hf, hn, δ0, hl⟩ := hp
    cases e with
    | none =>
      have hstep : eachSeriesTables o env (t :: ts) s = eachSeriesTables o env ts s1 := by
        rw [eachSeriesTables, hde]
      rw [hstep]
      obtain ⟨t1, f1, n1, δ1, d1⟩ := ih s1
      exact ⟨by rw [t1, ht], by rw [f1, hf], by rw [n1, hn],
        ⟨δ0 ++ δ1, by rw [d1, hl]; simp⟩⟩
    | some e2 =>
      have hstep : eachSeriesTables o env (t :: ts) s = (s1, some e2) := by
        rw [eachSeriesTables, hde]
      rw [hstep]
      exact ⟨ht, hf, hn, ⟨δ0, hl⟩⟩

theorem eachSeriesTables_none (o : GenOptions) (env : Env)
    (colsFn : String → List RawColumn)
    (henv : ∀ t, env.columnRows t = .ok (colsFn t)) :
    ∀ (ts : List String) (s : GenState), s.fd = none →
      (eachSeriesTables o env ts s).2 = none ∧
      (eachSeriesTables o env ts s).1.fd = none ∧
      (eachSeriesTables o env ts s).1.writesLog = s.writesLog ++
        ts.map (fun t => writeString o (writeTableArgs o t ((colsFn t).map normalizeColumn))) ∧
      (eachSeriesTables o env ts s).1.stats.buffer = s.stats.buffer ++
        String.join (ts.map (fun t =>
          writeString o (writeTableArgs o t ((colsFn t).map normalizeColumn)))) ∧
      (eachSeriesTables o env ts s).1.trace = s.trace := by
  intro ts
  induction ts with
  | nil =>
    intro s h
    simp [eachSeriesTables, h, String.join]
  | cons t ts ih =>
    intro s h
    rcases hde : writeTableStep o env t s with ⟨s1, e⟩
    have hp := writeTableStep_none o env t s h (colsFn t) (henv t)
    rw [hde] at hp
    obtain ⟨hsnd, hf, hl, hb, htr, -⟩ := hp
    simp only at hsnd
    subst hsnd
    have hstep : eachSeriesTables o env (t :: ts) s = eachSeriesTables o env ts s1 := by
      rw [eachSeriesTables, hde]
    rw [hstep]
    obtain ⟨i1, i2, i3, i4, i5⟩ := ih s1 hf
    refine ⟨i1, i2, ?_, ?_, by rw [i5, htr]⟩
    · rw [i3, hl]
      simp [List.append_assoc]
    · rw [i4, hb]
      simp [sjoin_cons, String.append_assoc]

theorem eachSeries_buffer_inv (o : GenOptions) (env : Env) :
    ∀ (ts : List String) (s : GenState), s.fd = none →
      s.stats.buffer = String.join s.writesLog →
      (eachSeriesTables o env ts s).1.fd = none ∧
      (eachSeriesTables o env ts s).1.stats.buffer =
        String.join (eachSeriesTables o env ts s).1.writesLog := by
  intro ts
  induction ts with
  | nil =>
    intro s h hb
    simpa [eachSeriesTables] using ⟨h, hb⟩
  | cons t ts ih =>
    intro s h hb
    cases henv : env.columnRows t with
    | error e =>
      rw [eachSeriesTables, writeTableStep_err o env t s e henv]
      exact ⟨h, hb⟩
    | ok raws =>
      rcases hde : writeTableStep o env t s with ⟨s1, e⟩
      have hp := writeTableStep_none o env t s h raws henv
      rw [hde] at hp
      obtain ⟨hsnd, hf, hl, hbuf, -, -⟩ := hp
      simp only at hsnd
      subst hsnd
      have hstep : eachSeriesTables o env (t :: ts) s = eachSeriesTables o env ts s1 := by
        rw [eachSeriesTables, hde]
      rw [hstep]
      refine ih s1 hf ?_
      rw [hbuf, hl, hb, sjoin_concat]

theorem openFileStep_skip (o : GenOptions) (env : Env) (s : GenState)
    (ho : o.outputFile = .undef ∨ ∃ n, o.outputFile = .num n ∧ n ≠ 1) :
    openFileStep o env s = (s, none) := by
  unfold openFileStep
  rcases ho with h | ⟨n, h, hn⟩ <;> rw [h]
  simp [hn]

theorem openFileStep_proj (o : GenOptions) (env : Env) (s : GenState) :
    (openFileStep o env s).1.writesLog = s.writesLog ∧
    (openFileStep o env s).1.trace = s.trace ∧
    (openFileStep o env s).1.stats = s.stats ∧
    (openFileStep o env s).1.tableNames = s.tableNames := by
  cases h : o.outputFile with
  | str f =>
    simp only [openFileStep, h]
    cases env.openResult <;> simp
  | num n =>
    simp only [openFileStep, h]
    split <;> simp
  | undef => simp [openFileStep, h]

theorem connectStep_eq (env : Env) (s : GenState) :
    connectStep env s = ({ s with connectAttempted := true }, env.connectResult) := by
  unfold connectStep
  cases env.connectResult <;> rfl

theorem fetchTablesStep_proj (o : GenOptions) (env : Env) (s : GenState) :
    (fetchTablesStep o env s).1.writesLog = s.writesLog ∧
    (fetchTablesStep o env s).1.trace = s.trace ∧
    (fetchTablesStep o env s).1.stats = s.stats ∧
    (fetchTablesStep o env s).1.fd = s.fd := by
  unfold fetchTablesStep
  cases env.tableRows <;> simp

theorem runStep_proj (o : GenOptions) (env : Env) (n : StepName) (s : GenState) :
    (runStep o env n s).1.trace = s.trace ∧
    (∃ δ, (runStep o env n s).1.writesLog = s.writesLog ++ δ) := by
  cases n with
  | openFileS =>
    obtain ⟨hl, ht, -, -⟩ := openFileStep_proj o env s
    exact ⟨ht, ⟨[], by rw [List.append_nil]; exact hl⟩⟩
  | connectS =>
    rw [runStep, connectStep_eq]
    exact ⟨rfl, ⟨[], by simp⟩⟩
  | writeHeadS =>
    obtain ⟨h1, -, -, hδ, -⟩ := runWrites_proj o env (headWriteCalls o (headerComment env)) s
    exact ⟨h1, hδ⟩
  | fetchTablesS =>
    obtain ⟨hl, ht, -, -⟩ := fetchTablesStep_proj o env s
    exact ⟨ht, ⟨[], by rw [List.append_nil]; exact hl⟩⟩
  | processTablesS =>
    obtain ⟨h1, -, -, hδ⟩ := eachSeriesTables_proj o env (s.tableNames.getD []) s
    exact ⟨h1, hδ⟩
  | writeTailS =>
    obtain ⟨h1, -, -, hδ, -⟩ := runWrites_proj o env (tailWriteCalls o) s
    exact ⟨h1, hδ⟩

theorem runSeries_trace (o : GenOptions) (env : Env) :
    ∀ (ns : List StepName) (s : GenState), ∃ k, k ≤ ns.length ∧
      (runSeries o env ns s).1.trace = s.trace ++ ns.take k ∧
      ((runSeries o env ns s).2 = none → k = ns.length) := by
  intro ns
  induction ns with
  | nil =>
    intro s
    exact ⟨0, by simp [runSeries]⟩
  | cons n ns ih =>
    intro s
    rcases hde : runStep o env n { s with trace := s.trace ++ [n] } with ⟨s1, e⟩
    have htr := (runStep_proj o env n { s with trace := s.trace ++ [n] }).1
    rw [hde] at htr
    cases e with
    | none =>
      have hstep : runSeries o env (n :: ns) s = runSeries o env ns s1 := by
        rw [runSeries, hde]
      rw [hstep]
      obtain ⟨k, hk, htrace, hnone⟩ := ih s1
      refine ⟨k + 1, by simpa using Nat.succ_le_succ hk, ?_, ?_⟩
      · rw [htrace, htr]
        simp [List.take_succ_cons, List.append_assoc]
      · intro hc
        simp [hnone hc]
    | some e2 =>
      have hstep : runSeries o env (n :: ns) s = (s1, some e2) := by
        rw [runSeries, hde]
      rw [hstep]
      refine ⟨1, by simp, ?_, by intro hc; simp at hc⟩
      simpa using htr

theorem runSeries_log_mono (o : GenOptions) (env : Env) :
    ∀ (ns : List StepName) (s : GenState),
      ∃ δ, (runSeries o env ns s).1.writesLog = s.writesLog ++ δ := by
  intro ns
  induction ns with
  | nil =>
    intro s
    exact ⟨[], by simp [runSeries]⟩
  | cons n ns ih =>
    intro s
    rcases hde : runStep o env n { s with trace := s.trace ++ [n] } with ⟨s1, e⟩
    have hδ := (runStep_proj o env n { s with trace := s.trace ++ [n] }).2
    rw [hde] at hδ
    obtain ⟨δ0, hl⟩ := hδ
    cases e with
    | none =>
      have hstep : runSeries o env (n :: ns) s = runSeries o env ns s1 := by
        rw [runSeries, hde]
      rw [hstep]
      obtain ⟨δ1, d1⟩ := ih s1
      exact ⟨δ0 ++ δ1, by rw [d1, hl]; simp⟩
    | some e2 =>
      have hstep : runSeries o env (n :: ns) s = (s1, some e2) := by
        rw [runSeries, hde]
      rw [hstep]
      exact ⟨δ0, hl⟩

theorem runSeries_success_concat (o : GenOptions) (env : Env) :
    ∀ (ns : List StepName) (n : StepName) (s : GenState),
      (runSeries o env (ns ++ [n]) s).2 = none →
      ∃ s1, runSeries o env ns s = (s1, none) ∧
        runSeries o env (ns ++ [n]) s =
          runStep o env n { s1 with trace := s1.trace ++ [n] } := by
  intro ns
  induction ns with
  | nil =>
    intro n s hnone
    rcases hde : runStep o env n { s with trace := s.trace ++ [n] } with ⟨s1, e⟩
    cases e with
    | none =>
      refine ⟨s, rfl, ?_⟩
      have h1 : runSeries o env ([] ++ [n]) s = (s1, none) := by
        show runSeries o env [n] s = (s1, none)
        rw [runSeries, hde]
        rfl
      rw [h1, hde]
    | some e2 =>
      exfalso
      have h1 : runSeries o env ([] ++ [n]) s = (s1, some e2) := by
        show runSeries o env [n] s = (s1, some e2)
        rw [runSeries, hde]
      rw [h1] at hnone
      simp at hnone
  | cons m ns ih =>
    intro n s hnone
    rcases hde : runStep o env m { s with trace := s.trace ++ [m] } with ⟨s1, e⟩
    cases e with
    | none =>
      have hstep : runSeries o env ((m :: ns) ++ [n]) s = runSeries o env (ns ++ [n]) s1 := by
        rw [List.cons_append, runSeries, hde]
      rw [hstep] at hnone ⊢
      obtain ⟨s2, h1, h2⟩ := ih n s1 hnone
      refine ⟨s2, ?_, h2⟩
      rw [runSeries, hde]
      exact h1
    | some e2 =>
      exfalso
      have hstep : runSeries o env ((m :: ns) ++ [n]) s = (s1, some e2) := by
        rw [List.cons_append, runSeries, hde]
      rw [hstep] at hnone
      simp at hnone

theorem finalize_parts (s : GenState) (e : Option String) :
    (finalize s e).callbacks = [(e, some s.stats)] ∧ (finalize s e).finalState = s := by
  unfold finalize
  split <;> exact ⟨rfl, rfl⟩



theorem finalize_closed (s : GenState) (e : Option String) :
    (finalize s e).closedFile = shouldClose s.fd := by
  unfold finalize
  by_cases h : shouldClose s.fd = true
  · rw [if_pos h, h]
  · rw [if_neg h]
    rw [Bool.not_eq_true] at h
    rw [h]

theorem runSeries_take (o : GenOptions) (env : Env) :
    ∀ (ns : List StepName) (s : GenState), ∃ k, k ≤ ns.length ∧
      (runSeries o env ns s).1.trace = s.trace ++ ns.take k ∧
      ((runSeries o env ns s).2 = none → k = ns.length) ∧
      ((runSeries o env ns s).2 ≠ none → 0 < k ∧
        (runSeries o env (ns.take (k - 1)) s).2 = none ∧
        runSeries o env (ns.take k) s = runSeries o env ns s) := by
  intro ns
  induction ns with
  | nil =>
    intro s
    exact ⟨0, by simp, by simp [runSeries], fun _ => rfl,
      fun h => absurd rfl h⟩
  | cons n ns ih =>
    intro s
    rcases hde : runStep o env n { s with trace := s.trace ++ [n] } with ⟨s1, e⟩
    have htr1 := (runStep_proj o env n { s with trace := s.trace ++ [n] }).1
    rw [hde] at htr1
    cases e with
    | none =>
      have hstep : runSeries o env (n :: ns) s = runSeries o env ns s1 := by
        rw [runSeries, hde]
      obtain ⟨k, hk, htr, hnone, herr⟩ := ih s1
      refine ⟨k + 1, by simpa using Nat.succ_le_succ hk, ?_, ?_, ?_⟩
      · rw [hstep, htr, htr1]
        simp [List.take_succ_cons, List.append_assoc]
      · intro hc
        rw [hstep] at hc
        simp [hnone hc]
      · intro hc
        rw [hstep] at hc
        obtain ⟨hk0, hprev, htake⟩ := herr hc
        refine ⟨Nat.succ_pos k, ?_, ?_⟩
        · cases k with
          | zero => simp at hk0
          | succ k0 =>
            have heq : (n :: ns).take (k0 + 1 + 1 - 1) = n :: ns.take k0 := by simp
            rw [heq]
            have hstep2 : runSeries o env (n :: ns.take k0) s =
                runSeries o env (ns.take k0) s1 := by
              rw [runSeries, hde]
            rw [hstep2]
            simpa using hprev
        · have heq : (n :: ns).take (k + 1) = n :: ns.take k := by
            simp [List.take_succ_cons]
          rw [heq]
          have hstep2 : runSeries o env (n :: ns.take k) s =
              runSeries o env (ns.take k) s1 := by
            rw [runSeries, hde]
          rw [hstep2, htake, hstep]
    | some e2 =>
      have hstep : runSeries o env (n :: ns) s = (s1, some e2) := by
        rw [runSeries, hde]
      refine ⟨1, by simp, ?_, ?_, ?_⟩
      · rw [hstep]
        simpa using htr1
      · intro hc
        rw [hstep] at hc
        simp at hc
      · intro hc
        refine ⟨Nat.one_pos, by simp [runSeries], ?_⟩
        have heq : (n :: ns).take 1 = [n] := by simp
        rw [heq, hstep]
        rw [runSeries, hde]

/-- C2: the pipeline runner executes open-file, connect, write-header,
fetch-tables, process-tables, write-tail in that fixed order: the executed
trace is exactly the first k steps of that list; a successful run executes all
six; when a step errors, the first k-1 steps succeeded and running only the
first k steps already yields the whole pipeline's final state and error, so
none of the later steps runs; the finalizer closes the file exactly under the
`fd && fd !== 1` condition, and the final callback is invoked exactly once,
with the pipeline's error and the stats object. -/
theorem pipeline_order_short_circuit (o : GenOptions) (env : Env) :
    (runPipeline o env).callbacks =
      [((runSeries o env pipelineOrder initState).2,
        some (runPipeline o env).finalState.stats)] ∧
    (runPipeline o env).closedFile =
      shouldClose (runPipeline o env).finalState.fd ∧
    ∃ k, k ≤ pipelineOrder.length ∧
      (runPipeline o env).finalState.trace = pipelineOrder.take k ∧
      ((runSeries o env pipelineOrder initState).2 = none →
        k = pipelineOrder.length) ∧
      ((runSeries o env pipelineOrder initState).2 ≠ none →
        0 < k ∧
        (runSeries o env (pipelineOrder.take (k - 1)) initState).2 = none ∧
        runSeries o env (pipelineOrder.take k) initState =
          runSeries o env pipelineOrder initState) := by
  rcases hres : runSeries o env pipelineOrder initState with ⟨s, e⟩
  have hpipe : runPipeline o env = finalize s e := by
    unfold runPipeline
    rw [hres]
  obtain ⟨hcb, hfs⟩ := finalize_parts s e
  have hcl := finalize_closed s e
  obtain ⟨k, hk, htr, hnone, herr⟩ := runSeries_take o env pipelineOrder initState
  rw [hres] at htr hnone herr
  simp only at htr hnone herr
  refine ⟨?_, ?_, ⟨k, hk, ?_, ?_, ?_⟩⟩
  · rw [hpipe, hcb, hfs]
  · rw [hpipe, hcl, hfs]
  · rw [hpipe, hfs]
    simpa using htr
  · intro hc
    simp only at hc
    exact hnone hc
  · intro hc
    simp only at hc
    obtain ⟨h1, h2, h3⟩ := herr hc
    exact ⟨h1, h2, h3⟩

theorem fetchTablesStep_ok (o : GenOptions) (env : Env) (s : GenState)
    (rows : List String) (htab : env.tableRows = .ok rows) :
    fetchTablesStep o env s =
      ({ s with tableNames := some (filterTableNames o.includeRegex o.excludeRegex rows) },
       none) := by
  unfold fetchTablesStep
  rw [htab]

theorem runStep_buffer_inv (o : GenOptions) (env : Env) (n : StepName) (s : GenState)
    (ho : o.outputFile = OutputFile.undef ∨ ∃ m, o.outputFile = OutputFile.num m ∧ m ≠ 1)
    (h : s.fd = none) (hb : s.stats.buffer = String.join s.writesLog) :
    (runStep o env n s).1.fd = none ∧
    (runStep o env n s).1.stats.buffer =
      String.join (runStep o env n s).1.writesLog := by
  cases n with
  | openFileS =>
    have hrw : runStep o env StepName.openFileS s = openFileStep o env s := rfl
    rw [hrw, openFileStep_skip o env s ho]
    exact ⟨h, hb⟩
  | connectS =>
    have hrw : runStep o env StepName.connectS s = connectStep env s := rfl
    rw [hrw, connectStep_eq]
    exact ⟨h, hb⟩
  | writeHeadS =>
    have hrw : runStep o env StepName.writeHeadS s =
        runWrites o env (headWriteCalls o (headerComment env)) s := rfl
    rw [hrw]
    obtain ⟨-, hf, hl, hbuf, -, -⟩ :=
      runWrites_none o env (headWriteCalls o (headerComment env)) s h
    exact ⟨hf, by rw [hbuf, hl, hb, sjoin_append]⟩
  | fetchTablesS =>
    have hrw : runStep o env StepName.fetchTablesS s = fetchTablesStep o env s := rfl
    rw [hrw]
    cases htab : env.tableRows with
    | error e =>
      have herr : fetchTablesStep o env s = ({ s with tableNames := none }, some e) := by
        unfold fetchTablesStep
        rw [htab]
      rw [herr]
      exact ⟨h, hb⟩
    | ok rows =>
      rw [fetchTablesStep_ok o env s rows htab]
      exact ⟨h, hb⟩
  | processTablesS =>
    exact eachSeries_buffer_inv o env (s.tableNames.getD []) s h hb
  | writeTailS =>
    have hrw : runStep o env StepName.writeTailS s =
        runWrites o env (tailWriteCalls o) s := rfl
    rw [hrw]
    obtain ⟨-, hf, hl, hbuf, -, -⟩ := runWrites_none o env (tailWriteCalls o) s h
    exact ⟨hf, by rw [hbuf, hl, hb, sjoin_append]⟩

theorem runSeries_buffer_inv (o : GenOptions) (env : Env)
    (ho : o.outputFile = OutputFile.undef ∨ ∃ m, o.outputFile = OutputFile.num m ∧ m ≠ 1) :
    ∀ (ns : List StepName) (s : GenState), s.fd = none →
      s.stats.buffer = String.join s.writesLog →
      (runSeries o env ns s).1.fd = none ∧
      (runSeries o env ns s).1.stats.buffer =
        String.join (runSeries o env ns s).1.writesLog := by
  intro ns
  induction ns with
  | nil =>
    intro s h hb
    exact ⟨h, hb⟩
  | cons n ns ih =>
    intro s h hb
    rcases hde : runStep o env n { s with trace := s.trace ++ [n] } with ⟨s1, e⟩
    have hinv := runStep_buffer_inv o env n { s with trace := s.trace ++ [n] } ho h hb
    rw [hde] at hinv
    obtain ⟨hf1, hb1⟩ := hinv
    cases e with
    | none =>
      have hstep : runSeries o env (n :: ns) s = runSeries o env ns s1 := by
        rw [runSeries, hde]
      rw [hstep]
      exact ih s1 hf1 hb1
    | some e2 =>
      have hstep : runSeries o env (n :: ns) s = (s1, some e2) := by
        rw [runSeries, hde]
      rw [hstep]
      exact ⟨hf1, hb1⟩

/-- C10: every `write()` call emits its non-empty arguments joined with
`options.eol` plus one trailing `options.eol`; and when `options.outputFile`
is neither a string nor the number 1, no file descriptor is ever set and the
full generated output accumulates in `stats.buffer` (the join of all write
calls), which the stats object hands back to the caller. -/
theorem write_joins_and_buffers (o : GenOptions) (env : Env)
    (ho : o.outputFile = OutputFile.undef ∨ ∃ m, o.outputFile = OutputFile.num m ∧ m ≠ 1) :
    (∀ args, writeString o args =
      joinSep o.eol (args.filter (fun s => s ≠ "")) ++ o.eol) ∧
    (runPipeline o env).finalState.fd = none ∧
    (runPipeline o env).finalState.stats.buffer =
      String.join (runPipeline o env).finalState.writesLog := by
  rcases hres : runSeries o env pipelineOrder initState with ⟨s, e⟩
  have hpipe : runPipeline o env = finalize s e := by
    unfold runPipeline
    rw [hres]
  obtain ⟨hcb, hfs⟩ := finalize_parts s e
  have hinv := runSeries_buffer_inv o env ho pipelineOrder initState rfl rfl
  rw [hres] at hinv
  simp only at hinv
  exact ⟨fun args => rfl, by rw [hpipe, hfs]; exact hinv.1, by rw [hpipe, hfs]; exact hinv.2⟩

/-- C10 witness: with `outputFile` absent, a concrete run keeps `fd` null and
returns the whole output in `stats.buffer`. -/
theorem write_joins_and_buffers_witness :
    (runPipeline sampleOptions sampleEnv).finalState.fd = none ∧
    (runPipeline sampleOptions sampleEnv).finalState.stats.buffer =
      String.join (runPipeline sampleOptions sampleEnv).finalState.writesLog := by
  have h := write_joins_and_buffers sampleOptions sampleEnv (Or.inl rfl)
  exact ⟨h.2.1, h.2.2⟩

theorem series_log_head (o : GenOptions) (env : Env) (hp : jsTruthy o.prepend = true) :
    (runSeries o env pipelineOrder initState).1.writesLog = [] ∨
    ∃ δ, (runSeries o env pipelineOrder initState).1.writesLog =
      writeString o [(o.prepend.getD "") ++ o.eol] :: δ := by
  rcases h1 : runStep o env StepName.openFileS
      { initState with trace := initState.trace ++ [StepName.openFileS] } with ⟨s1, e1⟩
  have hl1 : s1.writesLog = [] := by
    have hpr := (openFileStep_proj o env
      { initState with trace := initState.trace ++ [StepName.openFileS] }).1
    rw [show runStep o env StepName.openFileS
      { initState with trace := initState.trace ++ [StepName.openFileS] } =
      openFileStep o env
      { initState with trace := initState.trace ++ [StepName.openFileS] } from rfl] at h1
    rw [h1] at hpr
    exact hpr
  have hcons : pipelineOrder = StepName.openFileS ::
      [StepName.connectS, StepName.writeHeadS, StepName.fetchTablesS,
       StepName.processTablesS, StepName.writeTailS] := rfl
  cases e1 with
  | some e =>
    have hs : runSeries o env pipelineOrder initState = (s1, some e) := by
      rw [hcons, runSeries, h1]
    rw [hs]
    exact Or.inl hl1
  | none =>
    have hs : runSeries o env pipelineOrder initState =
        runSeries o env [StepName.connectS, StepName.writeHeadS, StepName.fetchTablesS,
          StepName.processTablesS, StepName.writeTailS] s1 := by
      rw [hcons, runSeries, h1]
    rw [hs]
    clear hs h1 hcons
    rcases h2 : runStep o env StepName.connectS
        { s1 with trace := s1.trace ++ [StepName.connectS] } with ⟨s2, e2⟩
    have hl2 : s2.writesLog = [] := by
      rw [show runStep o env StepName.connectS
        { s1 with trace := s1.trace ++ [StepName.connectS] } =
        connectStep env { s1 with trace := s1.trace ++ [StepName.connectS] } from rfl,
        connectStep_eq] at h2
      rw [Prod.mk.injEq] at h2
      rw [← h2.1, hl1]
    cases e2 with
    | some e =>
      have hs : runSeries o env [StepName.connectS, StepName.writeHeadS,
          StepName.fetchTablesS, StepName.processTablesS, StepName.writeTailS] s1 =
          (s2, some e) := by
        rw [runSeries, h2]
      rw [hs]
      exact Or.inl hl2
    | none =>
      have hs : runSeries o env [StepName.connectS, StepName.writeHeadS,
          StepName.fetchTablesS, StepName.processTablesS, StepName.writeTailS] s1 =
          runSeries o env [StepName.writeHeadS, StepName.fetchTablesS,
            StepName.processTablesS, StepName.writeTailS] s2 := by
        rw [runSeries, h2]
      rw [hs]
      clear hs h2
      rcases h3 : runStep o env StepName.writeHeadS
          { s2 with trace := s2.trace ++ [StepName.writeHeadS] } with ⟨s3, e3⟩
      have hcalls : headWriteCalls o (headerComment env) =
          [(o.prepend.getD "") ++ o.eol] ::
            (commentCalls o (headerComment env) ++ [headFinalCall o]) := by
        simp [headWriteCalls, prependCalls, hp]
      rw [show runStep o env StepName.writeHeadS
        { s2 with trace := s2.trace ++ [StepName.writeHeadS] } =
        runWrites o env (headWriteCalls o (headerComment env))
        { s2 with trace := s2.trace ++ [StepName.writeHeadS] } from rfl, hcalls] at h3
      obtain ⟨δ0, hδ0⟩ := runWrites_cons_log o env [(o.prepend.getD "") ++ o.eol]
        (commentCalls o (headerComment env) ++ [headFinalCall o])
        { s2 with trace := s2.trace ++ [StepName.writeHeadS] }
      rw [h3] at hδ0
      simp only at hδ0
      have hl3 : s3.writesLog =
          writeString o [(o.prepend.getD "") ++ o.eol] :: δ0 := by
        rw [hδ0, hl2]
        simp
      cases e3 with
      | some e =>
        have hs : runSeries o env [StepName.writeHeadS, StepName.fetchTablesS,
            StepName.processTablesS, StepName.writeTailS] s2 = (s3, some e) := by
          rw [runSeries, show runStep o env StepName.writeHeadS
            { s2 with trace := s2.trace ++ [StepName.writeHeadS] } =
            runWrites o env (headWriteCalls o (headerComment env))
            { s2 with trace := s2.trace ++ [StepName.writeHeadS] } from rfl, hcalls, h3]
        rw [hs]
        exact Or.inr ⟨δ0, hl3⟩
      | none =>
        have hs : runSeries o env [StepName.writeHeadS, StepName.fetchTablesS,
            StepName.processTablesS, StepName.writeTailS] s2 =
            runSeries o env [StepName.fetchTablesS, StepName.processTablesS,
              StepName.writeTailS] s3 := by
          rw [runSeries, show runStep o env StepName.writeHeadS
            { s2 with trace := s2.trace ++ [StepName.writeHeadS] } =
            runWrites o env (headWriteCalls o (headerComment env))
            { s2 with trace := s2.trace ++ [StepName.writeHeadS] } from rfl, hcalls, h3]
        rw [hs]
        obtain ⟨δ1, hδ1⟩ := runSeries_log_mono o env
          [StepName.fetchTablesS, StepName.processTablesS, StepName.writeTailS] s3
        rw [hδ1, hl3]
        exact Or.inr ⟨δ0 ++ δ1, by simp⟩

theorem series_log_last (o : GenOptions) (env : Env)
    (hap : jsTruthy o.append = true)
    (hsnd : (runSeries o env pipelineOrder initState).2 = none) :
    ∃ l, (runSeries o env pipelineOrder initState).1.writesLog =
      l ++ [writeString o [o.append.getD ""]] := by
  have hsp : pipelineOrder =
      [StepName.openFileS, StepName.connectS, StepName.writeHeadS,
       StepName.fetchTablesS, StepName.processTablesS] ++ [StepName.writeTailS] := rfl
  rw [hsp] at hsnd ⊢
  obtain ⟨s5, h5, heq⟩ := runSeries_success_concat o env _ _ initState hsnd
  rw [heq] at hsnd ⊢
  rw [show runStep o env StepName.writeTailS
    { s5 with trace := s5.trace ++ [StepName.writeTailS] } =
    runWrites o env (tailWriteCalls o)
    { s5 with trace := s5.trace ++ [StepName.writeTailS] } from rfl] at hsnd ⊢
  obtain ⟨-, -, -, -, hslog⟩ := runWrites_proj o env (tailWriteCalls o)
    { s5 with trace := s5.trace ++ [StepName.writeTailS] }
  rw [hslog hsnd]
  have htail : (tailWriteCalls o).map (writeString o) =
      (modTailCalls o).map (writeString o) ++ [writeString o [o.append.getD ""]] := by
    simp [tailWriteCalls, appendCalls, hap]
  rw [htail]
  exact ⟨_, by rw [List.append_assoc]⟩

/-- C8: when `options.prepend` is given, the prepend write is the first entry
of the write log (whenever anything at all was written), so its text precedes
the header comment and every table definition; when `options.append` is given
and the pipeline succeeds, the append write is the last entry of the write
log, after every table definition and the module-wrapping tail. -/
theorem prepend_first_append_last (o : GenOptions) (env : Env) :
    (jsTruthy o.prepend = true →
      (runPipeline o env).finalState.writesLog ≠ [] →
      (runPipeline o env).finalState.writesLog.head? =
        some (writeString o [(o.prepend.getD "") ++ o.eol])) ∧
    (jsTruthy o.append = true →
      (runSeries o env pipelineOrder initState).2 = none →
      (runPipeline o env).finalState.writesLog.getLast? =
        some (writeString o [o.append.getD ""])) := by
  have hfs : (runPipeline o env).finalState =
      (runSeries o env pipelineOrder initState).1 := by
    unfold runPipeline
    exact (finalize_parts _ _).2
  rw [hfs]
  constructor
  · intro hp hne
    rcases series_log_head o env hp with h | ⟨δ, hδ⟩
    · exact absurd h hne
    · rw [hδ]
      rfl
  · intro hap hsnd
    obtain ⟨l, hl⟩ := series_log_last o env hap hsnd
    rw [hl]
    exact List.getLast?_concat _

/-- C8 witness: a concrete successful run with both `prepend` and `append`
given has the prepend text first and the append text last in the write log. -/
theorem prepend_first_append_last_witness :
    (runPipeline { sampleOptions with prepend := some "//pre", append := some "//app" }
        sampleEnv).finalState.writesLog.head? =
      some (writeString { sampleOptions with prepend := some "//pre", append := some "//app" }
        ["//pre" ++ "\n"]) ∧
    (runPipeline { sampleOptions with prepend := some "//pre", append := some "//app" }
        sampleEnv).finalState.writesLog.getLast? =
      some (writeString { sampleOptions with prepend := some "//pre", append := some "//app" }
        ["//app"]) := by
  constructor
  · exact (prepend_first_append_last
      { sampleOptions with prepend := some "//pre", append := some "//app" }
      sampleEnv).1 rfl (by decide)
  · exact (prepend_first_append_last
      { sampleOptions with prepend := some "//pre", append := some "//app" }
      sampleEnv).2 rfl (by decide)

theorem isPrefixOf_self_append : ∀ l m : List Char, l.isPrefixOf (l ++ m) = true := by
  intro l m
  induction l with
  | nil => simp [List.isPrefixOf]
  | cons c rest ih => simp [List.isPrefixOf, ih]

theorem isPrefixOf_extend : ∀ {p a : List Char}, ∀ b : List Char,
    p.isPrefixOf a = true → p.isPrefixOf (a ++ b) = true := by
  intro p
  induction p with
  | nil =>
    intro a b _
    simp [List.isPrefixOf]
  | cons c p ih =>
    intro a b h
    cases a with
    | nil => simp [List.isPrefixOf] at h
    | cons d a =>
      simp only [List.isPrefixOf, List.cons_append, Bool.and_eq_true, beq_iff_eq] at h ⊢
      exact ⟨h.1, ih b h.2⟩

theorem sStartsWith_append (p x : String) : sStartsWith (p ++ x) p = true := by
  unfold sStartsWith
  rw [String.data_append]
  exact isPrefixOf_self_append p.data x.data

theorem sStartsWith_ext {s p x : String} (h : sStartsWith s p = true) :
    sStartsWith (s ++ x) p = true := by
  unfold sStartsWith at h ⊢
  rw [String.data_append]
  exact isPrefixOf_extend x.data h

theorem colString_indented (ind : String) (o : GenOptions) (c : NormColumn) :
    sStartsWith (colString ind o c) ind = true := by
  unfold colString
  repeat
    first
    | exact sStartsWith_append _ _
    | apply sStartsWith_ext

theorem joinSep_cols_indented (ind : String) (o : GenOptions) (sep : String) :
    ∀ cols : List NormColumn, cols ≠ [] →
      sStartsWith (joinSep sep (cols.map (colString ind o))) ind = true := by
  intro cols hne
  cases cols with
  | nil => exact absurd rfl hne
  | cons c cs =>
    cases cs with
    | nil =>
      show sStartsWith (joinSep sep [colString ind o c]) ind = true
      rw [joinSep]
      exact colString_indented ind o c
    | cons d ds =>
      show sStartsWith (joinSep sep
        (colString ind o c :: colString ind o d :: ds.map (colString ind o))) ind = true
      rw [joinSep]
      apply sStartsWith_ext
      apply sStartsWith_ext
      exact colString_indented ind o c

theorem tableCommentArgs_indented (ind : String) (o : GenOptions) (t : String) :
    ∀ l ∈ tableCommentArgs ind o t, sStartsWith l ind = true := by
  intro l hl
  unfold tableCommentArgs at hl
  simp only [List.mem_cons, List.not_mem_nil, or_false] at hl
  rcases hl with rfl | rfl | rfl
  · exact sStartsWith_append _ _
  · apply sStartsWith_ext
    exact sStartsWith_append _ _
  · exact sStartsWith_append _ _

theorem tableDefineArgs_indented (ind : String) (o : GenOptions) (t : String)
    (cols : List NormColumn) :
    ∀ l ∈ tableDefineArgs ind o t cols,
      l = o.eol ∨ l = "" ∨ sStartsWith l ind = true := by
  intro l hl
  unfold tableDefineArgs at hl
  cases hs : o.includeSchema <;> rw [hs] at hl <;>
    simp only [if_true, if_false, Bool.false_eq_true, Bool.true_eq_false, ite_true,
      ite_false, List.mem_append, List.mem_cons, List.not_mem_nil, or_false,
      List.nil_append, List.append_nil, or_assoc] at hl
  · rcases hl with rfl | rfl | rfl | rfl | rfl | rfl | rfl
    · refine Or.inr (Or.inr ?_)
      repeat
        first
        | exact sStartsWith_append _ _
        | apply sStartsWith_ext
    · refine Or.inr (Or.inr ?_)
      repeat
        first
        | exact sStartsWith_append _ _
        | apply sStartsWith_ext
    · refine Or.inr (Or.inr ?_)
      repeat
        first
        | exact sStartsWith_append _ _
        | apply sStartsWith_ext
    · rcases hcols : cols with _ | ⟨c, cs⟩
      · exact Or.inr (Or.inl rfl)
      · refine Or.inr (Or.inr ?_)
        exact joinSep_cols_indented ind o _ _ (by simp)
    · refine Or.inr (Or.inr ?_)
      repeat
        first
        | exact sStartsWith_append _ _
        | apply sStartsWith_ext
    · refine Or.inr (Or.inr ?_)
      repeat
        first
        | exact sStartsWith_append _ _
        | apply sStartsWith_ext
    · exact Or.inl rfl
  · rcases hl with rfl | rfl | rfl | rfl | rfl | rfl | rfl | rfl
    · refine Or.inr (Or.inr ?_)
      repeat
        first
        | exact sStartsWith_append _ _
        | apply sStartsWith_ext
    · refine Or.inr (Or.inr ?_)
      repeat
        first
        | exact sStartsWith_append _ _
        | apply sStartsWith_ext
    · refine Or.inr (Or.inr ?_)
      repeat
        first
        | exact sStartsWith_append _ _
        | apply sStartsWith_ext
    · refine Or.inr (Or.inr ?_)
      repeat
        first
        | exact sStartsWith_append _ _
        | apply sStartsWith_ext
    · rcases hcols : cols with _ | ⟨c, cs⟩
      · exact Or.inr (Or.inl rfl)
      · refine Or.inr (Or.inr ?_)
        exact joinSep_cols_indented ind o _ _ (by simp)
    · refine Or.inr (Or.inr ?_)
      repeat
        first
        | exact sStartsWith_append _ _
        | apply sStartsWith_ext
    · refine Or.inr (Or.inr ?_)
      repeat
        first
        | exact sStartsWith_append _ _
        | apply sStartsWith_ext
    · exact Or.inl rfl

/-- C7: with `options.modularize` set, the header write emits the
`module.exports = function(sql) \x7b` line and an indented `var exports = \x7b\x7d;`
line instead of the `require` line, every textual element of a table write is
prefixed by one extra `options.indent` (only the blank `options.eol` separator
and the empty columns join escape this), and the tail emits the indented
`return exports;` line and `\x7d;` before any append text; with it unset, the
header emits `var sql = require(\x27sql\x27);`, table lines carry no extra prefix,
and the tail emits only the append text. -/
theorem modularize_wrapping (o : GenOptions) (t : String) (cols : List NormColumn) :
    (o.modularize = true →
      headFinalCall o = ["module.exports = function(sql) \x7b",
        o.indent ++ "var exports = \x7b\x7d;", o.eol] ∧
      tableIndent o = o.indent ∧
      (∀ l ∈ writeTableArgs o t cols,
        l = o.eol ∨ l = "" ∨ sStartsWith l o.indent = true) ∧
      tailWriteCalls o = [[o.indent ++ "return exports;", "\x7d;"]] ++ appendCalls o) ∧
    (o.modularize = false →
      headFinalCall o = ["var sql = require(\x27sql\x27);", o.eol] ∧
      tableIndent o = "" ∧
      writeTableArgs o t cols =
        (if o.omitComments then [] else tableCommentArgs "" o t) ++
          tableDefineArgs "" o t cols ∧
      tailWriteCalls o = appendCalls o) := by
  constructor
  · intro hm
    have hind : tableIndent o = o.indent := by simp [tableIndent, hm]
    refine ⟨by simp [headFinalCall, hm], hind, ?_,
      by simp [tailWriteCalls, modTailCalls, hm]⟩
    intro l hl
    rw [writeTableArgs, hind] at hl
    rcases List.mem_append.mp hl with hl | hl
    · cases hc : o.omitComments <;> rw [hc] at hl
      · exact Or.inr (Or.inr (tableCommentArgs_indented o.indent o t l (by simpa using hl)))
      · simp at hl
    · exact tableDefineArgs_indented o.indent o t cols l hl
  · intro hm
    have hind : tableIndent o = "" := by simp [tableIndent, hm]
    exact ⟨by simp [headFinalCall, hm], hind,
      by rw [writeTableArgs, hind],
      by simp [tailWriteCalls, modTailCalls, hm]⟩

/-- C7 witness: at a concrete modularized options record, the header, an
indented table line, and the tail have the claimed shapes. -/
theorem modularize_wrapping_witness :
    headFinalCall { sampleOptions with modularize := true } =
      ["module.exports = function(sql) \x7b", "\t" ++ "var exports = \x7b\x7d;", "\n"] ∧
    tailWriteCalls { sampleOptions with modularize := true } =
      [["\t" ++ "return exports;", "\x7d;"]] := by
  have h := (modularize_wrapping { sampleOptions with modularize := true } "users" []).1 rfl
  refine ⟨h.1, ?_⟩
  have := h.2.2.2
  simpa [appendCalls, sampleOptions, jsTruthy] using this



theorem pipeline_success_log (o : GenOptions) (env : Env) (rows : List String)
    (colsFn : String → List RawColumn)
    (hout : o.outputFile = OutputFile.undef)
    (hconn : env.connectResult = none)
    (htab : env.tableRows = Except.ok rows)
    (hcols : ∀ u, env.columnRows u = Except.ok (colsFn u)) :
    (runSeries o env pipelineOrder initState).2 = none ∧
    (runPipeline o env).finalState.writesLog =
      (headWriteCalls o (headerComment env)).map (writeString o) ++
      (filterTableNames o.includeRegex o.excludeRegex rows).map
        (fun u => writeString o (writeTableArgs o u ((colsFn u).map normalizeColumn))) ++
      (tailWriteCalls o).map (writeString o) := by
  -- step 1: openFile leaves the state unchanged in buffer mode
  rcases h1 : runStep o env StepName.openFileS
      { initState with trace := initState.trace ++ [StepName.openFileS] } with ⟨s1, e1⟩
  have heq1 := openFileStep_skip o env
    { initState with trace := initState.trace ++ [StepName.openFileS] } (Or.inl hout)
  rw [show openFileStep o env
      { initState with trace := initState.trace ++ [StepName.openFileS] } =
    runStep o env StepName.openFileS
      { initState with trace := initState.trace ++ [StepName.openFileS] } from rfl,
    h1, Prod.mk.injEq] at heq1
  obtain ⟨hs1v, he1⟩ := heq1
  subst he1
  have hf1 : s1.fd = none := by rw [hs1v]; rfl
  have hl1 : s1.writesLog = [] := by rw [hs1v]; rfl
  have hser1 : runSeries o env pipelineOrder initState =
      runSeries o env [StepName.connectS, StepName.writeHeadS, StepName.fetchTablesS,
        StepName.processTablesS, StepName.writeTailS] s1 := by
    rw [show pipelineOrder = StepName.openFileS ::
      [StepName.connectS, StepName.writeHeadS, StepName.fetchTablesS,
       StepName.processTablesS, StepName.writeTailS] from rfl, runSeries, h1]
  -- step 2: connect succeeds
  rcases h2 : runStep o env StepName.connectS
      { s1 with trace := s1.trace ++ [StepName.connectS] } with ⟨s2, e2⟩
  have heq2 := connectStep_eq env { s1 with trace := s1.trace ++ [StepName.connectS] }
  rw [show connectStep env { s1 with trace := s1.trace ++ [StepName.connectS] } =
    runStep o env StepName.connectS
      { s1 with trace := s1.trace ++ [StepName.connectS] } from rfl,
    h2, hconn, Prod.mk.injEq] at heq2
  obtain ⟨hs2v, he2⟩ := heq2
  subst he2
  have hf2 : s2.fd = none := by rw [hs2v]; exact hf1
  have hl2 : s2.writesLog = [] := by rw [hs2v]; exact hl1
  have hser2 : runSeries o env pipelineOrder initState =
      runSeries o env [StepName.writeHeadS, StepName.fetchTablesS,
        StepName.processTablesS, StepName.writeTailS] s2 := by
    rw [hser1, runSeries, h2]
  -- step 3: writeHead in buffer mode
  rcases h3 : runStep o env StepName.writeHeadS
      { s2 with trace := s2.trace ++ [StepName.writeHeadS] } with ⟨s3, e3⟩
  have hw3 := runWrites_none o env (headWriteCalls o (headerComment env))
    { s2 with trace := s2.trace ++ [StepName.writeHeadS] } (by exact hf2)
  have h3w : runWrites o env (headWriteCalls o (headerComment env))
      { s2 with trace := s2.trace ++ [StepName.writeHeadS] } = (s3, e3) := h3
  rw [h3w] at hw3
  simp only at hw3
  obtain ⟨he3, hf3, hl3', -, -, -⟩ := hw3
  subst he3
  have hl3 : s3.writesLog =
      (headWriteCalls o (headerComment env)).map (writeString o) := by
    rw [hl3', show ({ s2 with trace := s2.trace ++ [StepName.writeHeadS] } :
      GenState).writesLog = s2.writesLog from rfl, hl2, List.nil_append]
  have hser3 : runSeries o env pipelineOrder initState =
      runSeries o env [StepName.fetchTablesS, StepName.processTablesS,
        StepName.writeTailS] s3 := by
    rw [hser2, runSeries, h3]
  -- step 4: fetchTables succeeds and records the filtered names
  rcases h4 : runStep o env StepName.fetchTablesS
      { s3 with trace := s3.trace ++ [StepName.fetchTablesS] } with ⟨s4, e4⟩
  have heq4 := fetchTablesStep_ok o env
    { s3 with trace := s3.trace ++ [StepName.fetchTablesS] } rows htab
  rw [show fetchTablesStep o env
      { s3 with trace := s3.trace ++ [StepName.fetchTablesS] } =
    runStep o env StepName.fetchTablesS
      { s3 with trace := s3.trace ++ [StepName.fetchTablesS] } from rfl,
    h4, Prod.mk.injEq] at heq4
  obtain ⟨hs4v, he4⟩ := heq4
  subst he4
  have hf4 : s4.fd = none := by rw [hs4v]; exact hf3
  have hl4 : s4.writesLog =
      (headWriteCalls o (headerComment env)).map (writeString o) := by
    rw [hs4v]; exact hl3
  have hser4 : runSeries o env pipelineOrder initState =
      runSeries o env [StepName.processTablesS, StepName.writeTailS] s4 := by
    rw [hser3, runSeries, h4]
  -- step 5: processTables in buffer mode with every column query succeeding
  rcases h5 : runStep o env StepName.processTablesS
      { s4 with trace := s4.trace ++ [StepName.processTablesS] } with ⟨s5, e5⟩
  have hTN : ({ s4 with trace := s4.trace ++ [StepName.processTablesS] } :
      GenState).tableNames.getD [] =
      filterTableNames o.includeRegex o.excludeRegex rows := by
    rw [show ({ s4 with trace := s4.trace ++ [StepName.processTablesS] } :
      GenState).tableNames = s4.tableNames from rfl, hs4v]
    rfl
  have h5e : eachSeriesTables o env
      (filterTableNames o.includeRegex o.excludeRegex rows)
      { s4 with trace := s4.trace ++ [StepName.processTablesS] } = (s5, e5) := by
    rw [← hTN]
    exact h5
  have hw5 := eachSeriesTables_none o env colsFn hcols
    (filterTableNames o.includeRegex o.excludeRegex rows)
    { s4 with trace := s4.trace ++ [StepName.processTablesS] } (by exact hf4)
  rw [h5e] at hw5
  simp only at hw5
  obtain ⟨he5, hf5, hl5', -, -⟩ := hw5
  subst he5
  have hl5 : s5.writesLog =
      (headWriteCalls o (headerComment env)).map (writeString o) ++
      (filterTableNames o.includeRegex o.excludeRegex rows).map
        (fun u => writeString o (writeTableArgs o u ((colsFn u).map normalizeColumn))) := by
    rw [hl5', show ({ s4 with trace := s4.trace ++ [StepName.processTablesS] } :
      GenState).writesLog = s4.writesLog from rfl, hl4]
  have hser5 : runSeries o env pipelineOrder initState =
      runSeries o env [StepName.writeTailS] s5 := by
    rw [hser4, runSeries, h5]
  -- step 6: writeTail in buffer mode
  rcases h6 : runStep o env StepName.writeTailS
      { s5 with trace := s5.trace ++ [StepName.writeTailS] } with ⟨s6, e6⟩
  have hw6 := runWrites_none o env (tailWriteCalls o)
    { s5 with trace := s5.trace ++ [StepName.writeTailS] } (by exact hf5)
  have h6w : runWrites o env (tailWriteCalls o)
      { s5 with trace := s5.trace ++ [StepName.writeTailS] } = (s6, e6) := h6
  rw [h6w] at hw6
  simp only at hw6
  obtain ⟨he6, -, hl6', -, -, -⟩ := hw6
  subst he6
  have hl6 : s6.writesLog =
      (headWriteCalls o (headerComment env)).map (writeString o) ++
      (filterTableNames o.includeRegex o.excludeRegex rows).map
        (fun u => writeString o (writeTableArgs o u ((colsFn u).map normalizeColumn))) ++
      (tailWriteCalls o).map (writeString o) := by
    rw [hl6', show ({ s5 with trace := s5.trace ++ [StepName.writeTailS] } :
      GenState).writesLog = s5.writesLog from rfl, hl5]
  have hser6 : runSeries o env pipelineOrder initState = (s6, none) := by
    rw [hser5, runSeries, h6]
    rfl
  refine ⟨by rw [hser6], ?_⟩
  have hfin : (runPipeline o env).finalState = s6 := by
    unfold runPipeline
    rw [hser6]
    exact (finalize_parts _ _).2
  rw [hfin, hl6]

/-- C6: in a successful run, with `options.omitComments` set the write log
contains no autogenerated comment: no header-comment write occurs and every
table write consists of the definition lines only; with it unset, the header
comment is written exactly once (after any prepend text, before the
`require`/module line) and every table write is preceded by its
`/** ... */` block naming the table via `fullNameStr`. -/
theorem omit_comments_suppression (o : GenOptions) (env : Env) (rows : List String)
    (colsFn : String → List RawColumn)
    (hout : o.outputFile = OutputFile.undef)
    (hconn : env.connectResult = none)
    (htab : env.tableRows = Except.ok rows)
    (hcols : ∀ u, env.columnRows u = Except.ok (colsFn u)) :
    (o.omitComments = true →
      (runPipeline o env).finalState.writesLog =
        (prependCalls o).map (writeString o) ++
        [writeString o (headFinalCall o)] ++
        (filterTableNames o.includeRegex o.excludeRegex rows).map
          (fun u => writeString o
            (tableDefineArgs (tableIndent o) o u ((colsFn u).map normalizeColumn))) ++
        (tailWriteCalls o).map (writeString o)) ∧
    (o.omitComments = false →
      (runPipeline o env).finalState.writesLog =
        (prependCalls o).map (writeString o) ++
        [writeString o [headerComment env ++ o.eol]] ++
        [writeString o (headFinalCall o)] ++
        (filterTableNames o.includeRegex o.excludeRegex rows).map
          (fun u => writeString o (tableCommentArgs (tableIndent o) o u ++
            tableDefineArgs (tableIndent o) o u ((colsFn u).map normalizeColumn))) ++
        (tailWriteCalls o).map (writeString o)) := by
  obtain ⟨-, hlog⟩ := pipeline_success_log o env rows colsFn hout hconn htab hcols
  constructor <;> intro hc <;> rw [hlog] <;>
    simp [headWriteCalls, commentCalls, writeTableArgs, hc, List.append_assoc]

/-- C6 witness: a concrete run with `omitComments` set writes only the
`require` line and the bare table definition. -/
theorem omit_comments_suppression_witness :
    (runPipeline { sampleOptions with omitComments := true } sampleEnv).finalState.writesLog =
      (prependCalls { sampleOptions with omitComments := true }).map
        (writeString { sampleOptions with omitComments := true }) ++
      [writeString { sampleOptions with omitComments := true }
        (headFinalCall { sampleOptions with omitComments := true })] ++
      (filterTableNames ({ sampleOptions with omitComments := true } : GenOptions).includeRegex
        ({ sampleOptions with omitComments := true } : GenOptions).excludeRegex ["users"]).map
        (fun u => writeString { sampleOptions with omitComments := true }
          (tableDefineArgs (tableIndent { sampleOptions with omitComments := true })
            { sampleOptions with omitComments := true } u
            ((sampleRawCols u).map normalizeColumn))) ++
      (tailWriteCalls { sampleOptions with omitComments := true }).map
        (writeString { sampleOptions with omitComments := true }) := by
  exact (omit_comments_suppression { sampleOptions with omitComments := true }
    sampleEnv ["users"] sampleRawCols rfl rfl rfl (fun u => rfl)).1 rfl



theorem replaceFirstL_dropPat (pat : List Char) :
    ∀ s : List Char, pat.isPrefixOf s = true →
      replaceFirstL s pat [] = s.drop pat.length := by
  intro s h
  cases s with
  | nil =>
    unfold replaceFirstL
    split <;> simp
  | cons c rest =>
    unfold replaceFirstL
    rw [if_pos h]
    simp

theorem mssql_strip_drop (dsn : String) (h : sStartsWith dsn "mssql://" = true) :
    jsReplaceFirst (stripTrailingSemi dsn) "mssql://" "" =
      stripTrailingSemi (sDropChars dsn 8) := by
  have hpre : ("mssql://".data).isPrefixOf dsn.data = true := h
  obtain ⟨rest, hr⟩ := List.isPrefixOf_iff_prefix.mp hpre
  have hdrop : dsn.data.drop 8 = rest := by
    rw [← hr, show (8 : Nat) = ("mssql://".data).length from rfl, List.drop_left]
  rcases hre : rest with _ | ⟨r0, rs⟩
  · -- the DSN is exactly "mssql://"
    rw [hre] at hr
    have hd : dsn = "mssql://" := String.ext (by rw [← hr]; simp)
    subst hd
    decide
  · have hne : rest ≠ [] := by rw [hre]; simp
    rw [← hre] at *
    by_cases hsemi : rest.getLast? = some (Char.ofNat 59)
    · have h1 : dsn.data.getLast? = some (Char.ofNat 59) := by
        rw [← hr, List.getLast?_append_of_ne_nil _ hne, hsemi]
      have hstrip : stripTrailingSemi dsn = ⟨"mssql://".data ++ rest.dropLast⟩ := by
        unfold stripTrailingSemi
        rw [if_pos h1, ← hr, List.dropLast_append_of_ne_nil _ hne]
      have hlhs : jsReplaceFirst (stripTrailingSemi dsn) "mssql://" "" =
          ⟨rest.dropLast⟩ := by
        rw [hstrip]
        unfold jsReplaceFirst
        rw [show (String.mk ("mssql://".data ++ rest.dropLast)).data =
          "mssql://".data ++ rest.dropLast from rfl,
          replaceFirstL_dropPat _ _ (isPrefixOf_self_append _ _),
          List.drop_left]
      have hrhs : stripTrailingSemi (sDropChars dsn 8) = ⟨rest.dropLast⟩ := by
        unfold sDropChars
        rw [hdrop]
        unfold stripTrailingSemi
        rw [if_pos (by rw [show (String.mk rest).data = rest from rfl]; exact hsemi)]
      rw [hlhs, hrhs]
    · have h1 : ¬ dsn.data.getLast? = some (Char.ofNat 59) := by
        rw [← hr, List.getLast?_append_of_ne_nil _ hne]
        exact hsemi
      have hstrip : stripTrailingSemi dsn = dsn := by
        unfold stripTrailingSemi
        rw [if_neg h1]
      have hlhs : jsReplaceFirst (stripTrailingSemi dsn) "mssql://" "" =
          ⟨rest⟩ := by
        rw [hstrip]
        unfold jsReplaceFirst
        rw [replaceFirstL_dropPat _ _ hpre,
          show ("mssql://".data).length = 8 from rfl, hdrop]
      have hrhs : stripTrailingSemi (sDropChars dsn 8) = ⟨rest⟩ := by
        unfold sDropChars
        rw [hdrop]
        unfold stripTrailingSemi
        rw [if_neg (by rw [show (String.mk rest).data = rest from rfl]; exact hsemi)]
      rw [hlhs, hrhs]

/-- C9: for the mssql dialect the DSN is transformed before connecting: when
the DSN starts with "mssql://" the string handed to `JSON.parse` is built by
dropping that prefix, stripping one trailing `;`, turning the `;`-separated
`key=value` pairs into a JSON object literal; when the parse fails the
callback is invoked once with the parse error and nothing is written and no
connection is attempted; when it succeeds, the object's `database` entry
supplies `options.database` when the caller left it unset (JS `||`). -/
theorem mssql_dsn_parsing (ro : RawOptions) (env : Env)
    (hdia : resolveDialect ro.dsn ro.dialect = Except.ok "mssql") :
    (sStartsWith (ro.dsn.getD "") "mssql://" = true →
      mssqlTransform (ro.dsn.getD "") =
        "\x7b\"" ++ jsReplaceAllChar (jsReplaceAllChar
          (stripTrailingSemi (sDropChars (ro.dsn.getD "") 8)) (Char.ofNat 61) "\":\"")
          (Char.ofNat 59) "\",\"" ++ "\"\x7d") ∧
    (∀ e, env.jsonParse (mssqlTransform (ro.dsn.getD "")) = Except.error e →
      generate ro env = errorOutcome e ∧
      (generate ro env).callbacks = [(some e, none)] ∧
      (generate ro env).finalState.writesLog = [] ∧
      (generate ro env).finalState.connectAttempted = false) ∧
    (∀ ps, env.jsonParse (mssqlTransform (ro.dsn.getD "")) = Except.ok ps →
      ∃ o2, buildOptions ro env = Except.ok o2 ∧
        o2.database = jsOr ro.database (lookupLast ps "database")) := by
  refine ⟨?_, ?_, ?_⟩
  · intro hpre
    simp only [mssqlTransform]
    rw [mssql_strip_drop _ hpre]
  · intro e hpar
    have hb : buildOptions ro env = Except.error e := by
      unfold buildOptions
      rw [hdia]
      simp [hpar]
    have hg : generate ro env = errorOutcome e := by
      unfold generate
      rw [hdia, hb]
      simp
    exact ⟨hg, by rw [hg]; rfl, by rw [hg]; rfl, by rw [hg]; rfl⟩
  · intro ps hpar
    unfold buildOptions
    rw [hdia]
    simp only [hpar]
    exact ⟨_, rfl, rfl⟩

def mssqlRo : RawOptions := { dsn := some "mssql://database=mydb;" }

def mssqlEnvErr : Env := { jsonParse := fun _ => .error "SyntaxError" }

/-- C9 witness: a concrete mssql DSN is transformed by dropping the prefix and
the trailing semicolon, and a failing parse makes the generator call back with
that error before doing anything else. -/
theorem mssql_dsn_parsing_witness :
    mssqlTransform "mssql://database=mydb;" =
      "\x7b\"" ++ jsReplaceAllChar (jsReplaceAllChar
        (stripTrailingSemi (sDropChars "mssql://database=mydb;" 8)) (Char.ofNat 61) "\":\"")
        (Char.ofNat 59) "\",\"" ++ "\"\x7d" ∧
    generate mssqlRo mssqlEnvErr = errorOutcome "SyntaxError" := by
  have h := mssql_dsn_parsing mssqlRo mssqlEnvErr rfl
  exact ⟨h.1 rfl, (h.2.1 "SyntaxError" rfl).1⟩

end NodeSqlGen
